import Mathlib

/-! # DiscScrubber: a verification development

Shallow embedding of `Source/Core/DiscIO/Src/DiscScrubber.cpp`.

Conventions of the embedding
* `u8`, `u32` and `u64` values are natural numbers; every C++ operation that can
  wrap is followed by an explicit `% 2 ^ 32` or `% 2 ^ 64` (`u32`, `u64` below).
* The host is little-endian (the code byte-swaps big-endian disc data with
  `Common::swap32`), and `long` is wide enough for every `fseek` offset.
* The cluster bitmap `m_FreeTable` is a list of `u8` cells, one per cluster:
  a nonzero cell is a free cluster, `0` is a used one.
* A file is the list of its bytes.
* The external collaborators (`IVolume`, `IFileSystem`, the C library and the
  progress callback) are parameters of the functions that use them.
-/

namespace DiscScrubber

/-! ## Machine integers -/

/-- Truncation to an unsigned 32-bit value. -/
def u32 (x : Nat) : Nat := x % 2 ^ 32

/-- Truncation to an unsigned 64-bit value. -/
def u64 (x : Nat) : Nat := x % 2 ^ 64

/-- The constant `SCRUBBER_VERSION` of the source. -/
def SCRUBBER_VERSION : Nat := 1

/-- The constant `CLUSTER_SIZE` of the source. -/
def CLUSTER_SIZE : Nat := 0x8000

/-! ## Used-region marker -/

/-- State of the marker: the cells of `m_FreeTable` and, as a ghost record, the
index of every store `m_FreeTable[i] = 0` that was executed (latest first),
whether or not `i` lies inside the allocation of `numClusters` cells. -/
structure Marked where
  m_FreeTable : List Nat
  stores : List Nat
deriving Repr, DecidableEq

/-- The statement `m_FreeTable[i] = 0`. A store past the end of the allocation of
`numClusters` cells is undefined behaviour in the source (it writes to memory that
is not a cell of the bitmap); here it changes no cell of the table and is recorded
in `stores`, so that properties of such a run are stated on `stores`. -/
def Marked.store (m : Marked) (i : Nat) : Marked :=
  { m_FreeTable := m.m_FreeTable.set i 0, stores := i :: m.stores }

/-- The `while` loop of `MarkAsUsed`. One unit of fuel is spent per evaluation
of the loop condition; `none` means the fuel ran out. -/
def MarkAsUsedLoop (m_FileSize EndOffset : Nat) : Nat → Nat → Marked → Option Marked
  | 0, _, _ => none
  | fuel + 1, CurrentOffset, m =>
    if CurrentOffset < EndOffset ∧ CurrentOffset < m_FileSize then
      MarkAsUsedLoop m_FileSize EndOffset fuel (u64 (CurrentOffset + CLUSTER_SIZE))
        (m.store (CurrentOffset / CLUSTER_SIZE))
    else
      some m

/-- Instrumented `MarkAsUsed(_Offset, _Size)`. The fuel `m_FileSize / CLUSTER_SIZE + 2`
covers every terminating run: the loop body runs only while
`CurrentOffset < m_FileSize`, and `CurrentOffset` grows by `CLUSTER_SIZE` until
it wraps; a run that wraps repeats the same offsets for ever. -/
def MarkAsUsedM (m_FileSize : Nat) (m : Marked) (_Offset _Size : Nat) : Option Marked :=
  let CurrentOffset := _Offset
  let EndOffset := u64 (CurrentOffset + _Size)
  MarkAsUsedLoop m_FileSize EndOffset (m_FileSize / CLUSTER_SIZE + 2) CurrentOffset m

/-- Instrumented `MarkAsUsedE(_PartitionDataOffset, _Offset, _Size)`. -/
def MarkAsUsedEM (m_FileSize : Nat) (m : Marked) (_PartitionDataOffset _Offset _Size : Nat) :
    Option Marked :=
  let Offset := _Offset / 0x7c00
  let Offset := u64 (Offset * CLUSTER_SIZE)
  let Offset := u64 (Offset + _PartitionDataOffset)
  let Size := _Size / 0x7c00
  let Size := u64 ((Size + 1) * CLUSTER_SIZE)
  let Size := u64 (Size + _Offset % 0x7c00)
  MarkAsUsedM m_FileSize m Offset Size

/-- The effect of `MarkAsUsed(_Offset, _Size)` on the bitmap `m_FreeTable` of an
image of `m_FileSize` bytes. -/
def MarkAsUsed (m_FileSize : Nat) (m_FreeTable : List Nat) (_Offset _Size : Nat) :
    Option (List Nat) :=
  (MarkAsUsedM m_FileSize ⟨m_FreeTable, []⟩ _Offset _Size).map Marked.m_FreeTable

/-- The effect of `MarkAsUsedE(_PartitionDataOffset, _Offset, _Size)` on the bitmap. -/
def MarkAsUsedE (m_FileSize : Nat) (m_FreeTable : List Nat)
    (_PartitionDataOffset _Offset _Size : Nat) : Option (List Nat) :=
  (MarkAsUsedEM m_FileSize ⟨m_FreeTable, []⟩ _PartitionDataOffset _Offset _Size).map
    Marked.m_FreeTable

/-- The indices stored to by `MarkAsUsed(_Offset, _Size)`, latest first. -/
def MarkAsUsedStores (m_FileSize : Nat) (m_FreeTable : List Nat) (_Offset _Size : Nat) :
    Option (List Nat) :=
  (MarkAsUsedM m_FileSize ⟨m_FreeTable, []⟩ _Offset _Size).map Marked.stores


/-! ## Host memory and the volume readers -/

/-- The `width` bytes of the object representation of `x`, lowest address first
(little-endian host). -/
def toBytesLE : Nat → Nat → List Nat
  | 0, _ => []
  | width + 1, x => x % 256 :: toBytesLE width (x / 256)

/-- The unsigned value whose object representation, lowest address first, is `bs`. -/
def ofBytesLE : List Nat → Nat
  | [] => 0
  | b :: bs => b % 256 + 256 * ofBytesLE bs

/-- Storing the bytes `bs` at the address of a variable of `width` bytes that
holds `old`: the bytes of the variable that `bs` does not reach keep their value,
and bytes of `bs` past the variable are not part of its value. -/
def pokeLE (width old : Nat) (bs : List Nat) : Nat :=
  ofBytesLE ((bs ++ (toBytesLE width old).drop bs.length).take width)

/-- Modelled from the spec: `Common::swap32`, declared outside the given sources;
the spec has every integer of the image stored big-endian, and the helper
reverses the four bytes of a 32-bit value. -/
def swap32 (x : Nat) : Nat := ofBytesLE (toBytesLE 4 x).reverse

/-- The overload `ReadFromDisc(u64, u64, u32&)`; `RAWRead _Offset _Length` is the
list of bytes that `m_Disc->RAWRead` stores at the address of `_Buffer`. -/
def ReadFromDisc_u32 (RAWRead : Nat → Nat → List Nat) (_Offset _Length _Buffer : Nat) : Nat :=
  let _Buffer := pokeLE 4 _Buffer (RAWRead _Offset _Length)
  swap32 _Buffer

/-- The overload `ReadFromDisc(u64, u64, u64&)`. -/
def ReadFromDisc_u64 (RAWRead : Nat → Nat → List Nat) (_Offset _Length _Buffer : Nat) : Nat :=
  let _Buffer := pokeLE 8 _Buffer (RAWRead _Offset _Length)
  let _Buffer := swap32 (u32 _Buffer)
  u64 (_Buffer <<< 2)

/-- The overload `ReadFromVolume(u64, u64, u32&)`; `Read _Offset _Length` is the
list of bytes that `m_Disc->Read` stores at the address of `_Buffer`. -/
def ReadFromVolume_u32 (Read : Nat → Nat → List Nat) (_Offset _Length _Buffer : Nat) : Nat :=
  let _Buffer := pokeLE 4 _Buffer (Read _Offset _Length)
  swap32 _Buffer

/-- The overload `ReadFromVolume(u64, u64, u64&)`. -/
def ReadFromVolume_u64 (Read : Nat → Nat → List Nat) (_Offset _Length _Buffer : Nat) : Nat :=
  let _Buffer := pokeLE 8 _Buffer (Read _Offset _Length)
  let _Buffer := swap32 (u32 _Buffer)
  u64 (_Buffer <<< 2)

/-! ## Executable extent scanner -/

/-- The locals `offset`, `size` and `max` of `GetDOLSize`. -/
structure DolScan where
  offset : Nat
  size : Nat
  max : Nat
deriving Repr, DecidableEq

/-- One iteration of either loop of `GetDOLSize`; `offsets` and `sizes` are the
header positions of the two arrays (0x00 and 0x90 for the code segments, 0x1c
and 0xac for the data segments). -/
def GetDOLSizeStep (Read : Nat → Nat → List Nat) (_DOLOffset offsets sizes : Nat)
    (s : DolScan) (i : Nat) : DolScan :=
  let offset := ReadFromVolume_u32 Read (u64 (_DOLOffset + offsets + i * 4)) 4 s.offset
  let size := ReadFromVolume_u32 Read (u64 (_DOLOffset + sizes + i * 4)) 4 s.size
  let max := if u32 (offset + size) > s.max then u32 (offset + size) else s.max
  { offset := offset, size := size, max := max }

/-- The function `GetDOLSize(_DOLOffset)` on the volume whose `Read` is given. -/
def GetDOLSize (Read : Nat → Nat → List Nat) (_DOLOffset : Nat) : Nat :=
  let s : DolScan := { offset := 0, size := 0, max := 0 }
  let s := (List.range 7).foldl (GetDOLSizeStep Read _DOLOffset 0x00 0x90) s
  let s := (List.range 11).foldl (GetDOLSizeStep Read _DOLOffset 0x1c 0xac) s
  s.max

/-! ## Idempotency marker -/

/-- Writing `data` at position `pos` of a file opened with `r+b`: the bytes
under the data are replaced, and a write past the end extends the file (a gap
is filled with zero bytes). -/
def fwriteAt (file : List Nat) (pos : Nat) (data : List Nat) : List Nat :=
  file.take pos ++ List.replicate (pos - file.length) 0 ++ data ++ file.drop (pos + data.length)

/-- The function `IsScrubbed`; `none` is a file that `fopen` cannot open.
`fread` stores the bytes it finds from position 0x80 on, at most four, in
`ScrubbedFlag`. -/
def IsScrubbed (f : Option (List Nat)) : Nat :=
  match f with
  | none => 0
  | some bytes =>
    let ScrubbedFlag := SCRUBBER_VERSION
    let ScrubbedFlag := pokeLE 4 ScrubbedFlag ((bytes.drop 0x80).take 4)
    ScrubbedFlag

/-! ## The environment of a run -/

/-- The fields of `SFileInfo` (declared in `Filesystem.h`) that the scrubber reads. -/
structure SFileInfo where
  m_NameOffset : Nat
  m_Offset : Nat
  m_FileSize : Nat
deriving Repr, DecidableEq

/-- Observable actions of a run, in the order they happen. -/
inductive Event where
  | PanicYesNo (answer : Bool)
  | callbackAlreadyScrubbed
  | callbackParsing
  | fwriteCluster (CurrentOffset : Nat) (ok : Bool)
  | PanicAlert
  | callbackProgress (i : Nat)
  | fwriteFlag (ok : Bool)
deriving Repr, DecidableEq

/-- Everything outside the given source that a run of `Scrub` depends on. -/
structure Host where
  /-- `fopen(filename, "rb")` of `IsScrubbed` succeeds. -/
  fopenProbe : Bool
  /-- The answer to the question asked through `PanicYesNo`. -/
  PanicYesNo : Bool
  /-- `CreateVolumeFromFilename(filename)->GetSize()`. -/
  GetSize : Nat
  /-- `RAWRead` of the volume of the whole disc. -/
  RAWRead : Nat → Nat → List Nat
  /-- `Read` of the volume of partition `Number` of group `GroupNumber`. -/
  Read : Nat → Nat → Nat → Nat → List Nat
  /-- `GetFileList` of the file system of that partition. -/
  GetFileList : Nat → Nat → List SFileInfo
  /-- `fopen(filename, "r+b")` of `Scrub` succeeds. -/
  fopenRewrite : Bool
  /-- The `fwrite` of cluster `i` succeeds. -/
  fwriteOk : Nat → Bool
  /-- `fopen(filename, "r+b")` of `MarkAsScrubbed` succeeds. -/
  fopenFlag : Bool
  /-- The `fwrite` of `MarkAsScrubbed` succeeds. -/
  fwriteFlagOk : Bool
  /-- The value found in the uninitialised local `success` of `MarkAsScrubbed`. -/
  uninitSuccess : Bool

/-! ## Partition catalog parser -/

/-- The fields of `SPartitionHeader` that the scrubber reads or writes. -/
structure SPartitionHeader where
  TMDSize : Nat
  TMDOffset : Nat
  CertChainSize : Nat
  CertChainOffset : Nat
  H3Offset : Nat
  DataOffset : Nat
  DataSize : Nat
  DOLOffset : Nat
  DOLSize : Nat
  FSTOffset : Nat
  FSTSize : Nat
  ApploaderSize : Nat
  ApploaderTrailerSize : Nat
deriving Repr, DecidableEq

/-- The struct `SPartition`. -/
structure SPartition where
  GroupNumber : Nat
  Number : Nat
  Offset : Nat
  /-- The field `Type` of the source. -/
  Type_ : Nat
  Header : SPartitionHeader
deriving Repr, DecidableEq

/-- The struct `SPartitionGroup`. -/
structure SPartitionGroup where
  numPartitions : Nat
  PartitionsOffset : Nat
  PartitionsVec : List SPartition
deriving Repr, DecidableEq

/-- The body of the first inner loop of `ParseDisc`: the partition `i` of
group `x`, read through `RAWRead`. The local `Partition` is not initialised; the
fields that the loop does not read are taken as 0. -/
def ReadPartition (RAWRead : Nat → Nat → List Nat) (x PartitionsOffset i : Nat) : SPartition :=
  let Offset := ReadFromDisc_u64 RAWRead (u64 (PartitionsOffset + u32 (i * 8) + 0)) 4 0
  let Type_ := ReadFromDisc_u32 RAWRead (u64 (PartitionsOffset + u32 (i * 8) + 4)) 4 0
  { GroupNumber := x
    Number := i
    Offset := Offset
    Type_ := Type_
    Header :=
      { TMDSize := ReadFromDisc_u32 RAWRead (u64 (Offset + 0x2a4)) 4 0
        TMDOffset := ReadFromDisc_u64 RAWRead (u64 (Offset + 0x2a8)) 4 0
        CertChainSize := ReadFromDisc_u32 RAWRead (u64 (Offset + 0x2ac)) 4 0
        CertChainOffset := ReadFromDisc_u64 RAWRead (u64 (Offset + 0x2b0)) 4 0
        H3Offset := ReadFromDisc_u64 RAWRead (u64 (Offset + 0x2b4)) 4 0
        DataOffset := ReadFromDisc_u64 RAWRead (u64 (Offset + 0x2b8)) 4 0
        DataSize := ReadFromDisc_u64 RAWRead (u64 (Offset + 0x2bc)) 4 0
        DOLOffset := 0
        DOLSize := 0
        FSTOffset := 0
        FSTSize := 0
        ApploaderSize := 0
        ApploaderTrailerSize := 0 } }

/-- The loop of `ParsePartitionData` over the file list. -/
def MarkFiles (m_FileSize DataBase : Nat) : List SFileInfo → List Nat → Option (List Nat)
  | [], t => some t
  | f :: fs, t =>
    (if f.m_NameOffset &&& 0x1000000 ≠ 0 then
      MarkAsUsedE m_FileSize t DataBase f.m_Offset 1
    else
      MarkAsUsedE m_FileSize t DataBase f.m_Offset f.m_FileSize).bind
      (MarkFiles m_FileSize DataBase fs)

/-- The function `ParsePartitionData`: the partition with its header completed
and the bitmap after the marking, or `none` when a marking loop does not return. -/
def ParsePartitionData (host : Host) (m_FileSize : Nat) (m_FreeTable : List Nat)
    (_rPartition : SPartition) : Option (SPartition × List Nat) :=
  let Read := host.Read _rPartition.GroupNumber _rPartition.Number
  let Files := host.GetFileList _rPartition.GroupNumber _rPartition.Number
  let DataBase := u64 (_rPartition.Offset + _rPartition.Header.DataOffset)
  let ApploaderSize := ReadFromVolume_u32 Read (0x2440 + 0x14) 4 _rPartition.Header.ApploaderSize
  let ApploaderTrailerSize :=
    ReadFromVolume_u32 Read (0x2440 + 0x18) 4 _rPartition.Header.ApploaderTrailerSize
  (MarkAsUsedE m_FileSize m_FreeTable DataBase 0
      (u32 (u32 (0x2440 + ApploaderSize) + ApploaderTrailerSize))).bind fun t =>
  let DOLOffset := ReadFromVolume_u64 Read 0x420 4 _rPartition.Header.DOLOffset
  let DOLSize := GetDOLSize Read DOLOffset
  (MarkAsUsedE m_FileSize t DataBase DOLOffset DOLSize).bind fun t =>
  let FSTOffset := ReadFromVolume_u64 Read 0x424 4 _rPartition.Header.FSTOffset
  let FSTSize := ReadFromVolume_u64 Read 0x428 4 _rPartition.Header.FSTSize
  (MarkAsUsedE m_FileSize t DataBase FSTOffset FSTSize).bind fun t =>
  (MarkFiles m_FileSize DataBase Files t).map fun t =>
  ({ _rPartition with
      Header :=
        { _rPartition.Header with
          ApploaderSize := ApploaderSize
          ApploaderTrailerSize := ApploaderTrailerSize
          DOLOffset := DOLOffset
          DOLSize := DOLSize
          FSTOffset := FSTOffset
          FSTSize := FSTSize } }, t)

/-- The second inner loop of `ParseDisc`, over `PartitionsVec`. -/
def MarkPartitions (host : Host) (m_FileSize : Nat) :
    List SPartition → List Nat → Option (List SPartition × List Nat)
  | [], t => some ([], t)
  | rPartition :: rest, t =>
    let rHeader := rPartition.Header
    (MarkAsUsed m_FileSize t rPartition.Offset 0x2c0).bind fun t =>
    (MarkAsUsed m_FileSize t (u64 (rPartition.Offset + rHeader.TMDOffset)) rHeader.TMDSize).bind
      fun t =>
    (MarkAsUsed m_FileSize t (u64 (rPartition.Offset + rHeader.CertChainOffset))
      rHeader.CertChainSize).bind fun t =>
    (MarkAsUsed m_FileSize t (u64 (rPartition.Offset + rHeader.H3Offset)) 0x18000).bind fun t =>
    (ParsePartitionData host m_FileSize t rPartition).bind fun r =>
    (MarkPartitions host m_FileSize rest r.2).map fun rs => (r.1 :: rs.1, rs.2)

/-- The body of the outer loop of `ParseDisc` for the group `x`, whose entry of
the global `PartitionGroup` is `g`. -/
def ParseGroup (host : Host) (m_FileSize x : Nat) (g : SPartitionGroup)
    (m_FreeTable : List Nat) : Option (SPartitionGroup × List Nat) :=
  let numPartitions := ReadFromDisc_u32 host.RAWRead (0x40000 + x * 8 + 0) 4 g.numPartitions
  let PartitionsOffset :=
    ReadFromDisc_u64 host.RAWRead (0x40000 + x * 8 + 4) 4 g.PartitionsOffset
  let PartitionsVec :=
    g.PartitionsVec ++ (List.range numPartitions).map (ReadPartition host.RAWRead x PartitionsOffset)
  (MarkPartitions host m_FileSize PartitionsVec m_FreeTable).map fun r =>
    ({ numPartitions := numPartitions
       PartitionsOffset := PartitionsOffset
       PartitionsVec := r.1 }, r.2)

/-- The outer loop of `ParseDisc` from the group `x` on. -/
def ParseGroups (host : Host) (m_FileSize : Nat) :
    Nat → List SPartitionGroup → List Nat → Option (List SPartitionGroup × List Nat)
  | _, [], t => some ([], t)
  | x, g :: gs, t =>
    (ParseGroup host m_FileSize x g t).bind fun r =>
    (ParseGroups host m_FileSize (x + 1) gs r.2).map fun rs => (r.1 :: rs.1, rs.2)

/-- The function `ParseDisc` on the global `PartitionGroup` (four groups) and
the bitmap. -/
def ParseDisc (host : Host) (m_FileSize : Nat) (PartitionGroup : List SPartitionGroup)
    (m_FreeTable : List Nat) : Option (List SPartitionGroup × List Nat) :=
  (MarkAsUsed m_FileSize m_FreeTable 0 0x50000).bind fun t =>
  ParseGroups host m_FileSize 0 PartitionGroup t

/-- The global `PartitionGroup` of a process that has not scrubbed before. -/
def PartitionGroup0 : List SPartitionGroup :=
  List.replicate 4 { numPartitions := 0, PartitionsOffset := 0, PartitionsVec := [] }

/-! ## Rewrite engine -/

/-- How a run ends. -/
inductive Exit where
  | returned (success : Bool)
  | crashed
  | hangs
deriving Repr, DecidableEq

/-- A run: how it ends, the file it leaves, and what it did. -/
structure Run where
  exit : Exit
  file : List Nat
  events : List Event
deriving Repr, DecidableEq

/-- State of the rewrite loop of `Scrub`. `divZero` is set when the loop
evaluates `i % (numClusters / 1000)` with a zero divisor, which ends the run. -/
structure Rewrite where
  success : Bool
  file : List Nat
  events : List Event
  divZero : Bool
deriving Repr, DecidableEq

/-- The buffer `m_Sector1` after `std::fill`. -/
def m_Sector1 : List Nat := List.replicate CLUSTER_SIZE 0xFF

/-- The `for` loop of `Scrub`; the first argument is `numClusters - i`. -/
def RewriteLoop (host : Host) (numClusters : Nat) (m_FreeTable : List Nat) :
    Nat → Nat → Rewrite → Rewrite
  | 0, _, s => s
  | k + 1, i, s =>
    let CurrentOffset := u64 (i * CLUSTER_SIZE)
    let free : Bool := m_FreeTable.getD i 0 ≠ 0
    let ok := host.fwriteOk i
    let written : Nat := if ok then 1 else 0
    let s1 : Rewrite :=
      if free then
        { s with
          file := if ok then fwriteAt s.file CurrentOffset m_Sector1 else s.file
          success := s.success || decide (written = CLUSTER_SIZE)
          events := s.events ++ [Event.fwriteCluster CurrentOffset ok] }
      else s
    if free && !s1.success then
      { s1 with events := s1.events ++ [Event.PanicAlert] }
    else if numClusters / 1000 = 0 then
      { s1 with divZero := true }
    else
      let s2 : Rewrite :=
        if i % (numClusters / 1000) = 0 then
          { s1 with events := s1.events ++ [Event.callbackProgress i] }
        else s1
      RewriteLoop host numClusters m_FreeTable k (i + 1) s2

/-- The function `MarkAsScrubbed`: its result and the file it leaves. -/
def MarkAsScrubbed (host : Host) (file : List Nat) : Bool × List Nat × List Event :=
  if !host.fopenFlag then
    (false, file, [])
  else
    let success := host.uninitSuccess
    let ok := host.fwriteFlagOk
    let written : Nat := if ok then 1 else 0
    let success := success || decide (written = 1)
    (success, if ok then fwriteAt file 0x80 [SCRUBBER_VERSION] else file, [Event.fwriteFlag ok])

/-- The part of `Scrub` after the idempotency check (from the call of
`CreateVolumeFromFilename` to the end); `events` is what the check did. -/
def ScrubRun (host : Host) (PartitionGroup : List SPartitionGroup) (file : List Nat)
    (events : List Event) : Run :=
  let success := true
  let m_FileSize := host.GetSize
  let numClusters := m_FileSize / CLUSTER_SIZE
  let m_FreeTable := List.replicate numClusters 1
  let events := events ++ [Event.callbackParsing]
  match ParseDisc host m_FileSize PartitionGroup m_FreeTable with
  | none => { exit := Exit.hangs, file := file, events := events }
  | some parsed =>
    if !host.fopenRewrite then
      { exit := Exit.returned false, file := file, events := events }
    else
      let s := RewriteLoop host numClusters parsed.2 numClusters 0
        { success := success, file := file, events := events, divZero := false }
      if s.divZero then
        { exit := Exit.crashed, file := s.file, events := s.events }
      else if s.success then
        let r := MarkAsScrubbed host s.file
        { exit := Exit.returned s.success, file := r.2.1, events := s.events ++ r.2.2 }
      else
        { exit := Exit.returned s.success, file := s.file, events := s.events }

/-- The function `Scrub` on the file with the given bytes, started with the
global `PartitionGroup` as given. -/
def Scrub (host : Host) (PartitionGroup : List SPartitionGroup) (file : List Nat) : Run :=
  let success := true
  let version := IsScrubbed (if host.fopenProbe then some file else none)
  if version ≠ 0 ∧ version < SCRUBBER_VERSION then
    if !host.PanicYesNo then
      { exit := Exit.returned success, file := file, events := [Event.PanicYesNo false] }
    else
      ScrubRun host PartitionGroup file [Event.PanicYesNo true]
  else if version ≠ 0 then
    { exit := Exit.returned success, file := file, events := [Event.callbackAlreadyScrubbed] }
  else
    ScrubRun host PartitionGroup file []

/-! ## Reference notions used to state the properties -/

/-- A list of byte values. -/
def IsBytes (l : List Nat) : Prop := ∀ b ∈ l, b < 256

/-- The unsigned value of a four-byte big-endian field. -/
def be32 (b0 b1 b2 b3 : Nat) : Nat := b0 * 2 ^ 24 + b1 * 2 ^ 16 + b2 * 2 ^ 8 + b3

/-- The value of the 32-bit big-endian field at `pos` of a volume. -/
def field32 (Read : Nat → Nat → List Nat) (pos : Nat) : Nat :=
  ReadFromVolume_u32 Read pos 4 0

/-- The 18 pairs (offset, size) of the segment table of the executable at
`_DOLOffset`: the 7 code segments, then the 11 data segments. -/
def dolSegments (Read : Nat → Nat → List Nat) (_DOLOffset : Nat) : List (Nat × Nat) :=
  (List.range 7).map (fun i =>
    (field32 Read (u64 (_DOLOffset + 0x00 + i * 4)), field32 Read (u64 (_DOLOffset + 0x90 + i * 4))))
  ++ (List.range 11).map (fun i =>
    (field32 Read (u64 (_DOLOffset + 0x1c + i * 4)), field32 Read (u64 (_DOLOffset + 0xac + i * 4))))

/-- The maximum of `offset + size` over a list of segments, 0 for none. -/
def maxExtent (segs : List (Nat × Nat)) : Nat :=
  segs.foldl (fun m s => max m (s.1 + s.2)) 0

/-- The maximum of `offset + size` formed in 32-bit arithmetic. -/
def maxExtent32 (segs : List (Nat × Nat)) : Nat :=
  segs.foldl (fun m s => max m (u32 (s.1 + s.2))) 0

/-- A host on which every call into the C library succeeds, with a disc of
`size` bytes that reads as zero bytes everywhere (so without partitions). -/
def blankHost (size : Nat) : Host :=
  { fopenProbe := true
    PanicYesNo := false
    GetSize := size
    RAWRead := fun _ len => List.replicate len 0
    Read := fun _ _ _ len => List.replicate len 0
    GetFileList := fun _ _ => []
    fopenRewrite := true
    fwriteOk := fun _ => true
    fopenFlag := true
    fwriteFlagOk := true
    uninitSuccess := false }

/-- The bitmap `t'` has the cells of `t`, and every used cell of `t` is used in `t'`. -/
def Keeps (t t' : List Nat) : Prop :=
  t'.length = t.length ∧ ∀ c : Nat, t[c]? = some 0 → t'[c]? = some 0

/-- The start of the data area of a partition, as `ParsePartitionData` forms it:
`_rPartition.Offset + _rPartition.Header.DataOffset`. -/
def DataBase (p : SPartition) : Nat := u64 (p.Offset + p.Header.DataOffset)

/-- The body of the `for` loop of `Scrub` up to the progress test: the branch on
`m_FreeTable[i]` with the write of the cluster. -/
def RewriteBody (host : Host) (m_FreeTable : List Nat) (i : Nat) (s : Rewrite) : Rewrite :=
  if m_FreeTable.getD i 0 ≠ 0 then
    { s with
      file := if host.fwriteOk i then fwriteAt s.file (u64 (i * CLUSTER_SIZE)) m_Sector1 else s.file
      success := s.success || decide ((if host.fwriteOk i then 1 else 0) = CLUSTER_SIZE)
      events := s.events ++ [Event.fwriteCluster (u64 (i * CLUSTER_SIZE)) (host.fwriteOk i)] }
  else s

/-- The progress test of the `for` loop of `Scrub`, for a nonzero divisor. -/
def RewriteProgress (numClusters i : Nat) (s : Rewrite) : Rewrite :=
  if i % (numClusters / 1000) = 0 then
    { s with events := s.events ++ [Event.callbackProgress i] }
  else s

/-! ## Concrete discs -/

/-- A volume on which the executable header at 0 has code segment 0 at offset
0xFFFFFFFF with size 2, and every other field zero. -/
def wrapRead (_Offset _Length : Nat) : List Nat :=
  if _Offset = 0x00 then [0xFF, 0xFF, 0xFF, 0xFF]
  else if _Offset = 0x90 then [0, 0, 0, 2]
  else [0, 0, 0, 0]

/-- A volume on which the executable header at 0 has data segment 0 at offset
0x100 with size 0x20, and every other field zero. -/
def dataRead (_Offset _Length : Nat) : List Nat :=
  if _Offset = 0x1c then [0, 0, 1, 0]
  else if _Offset = 0xac then [0, 0, 0, 0x20]
  else [0, 0, 0, 0]

/-- The bytes that `RAWRead` delivers on a disc with one partition: group 0 has
one partition, its table is at 0x40020, the partition is at 0x50000 and its data
area starts 0x20000 bytes further, at 0x70000; everything else reads as zero. -/
def onePartitionRAWRead (_Offset _Length : Nat) : List Nat :=
  if _Offset = 0x40000 then [0, 0, 0, 1]
  else if _Offset = 0x40004 then [0x00, 0x01, 0x00, 0x08]
  else if _Offset = 0x40020 then [0x00, 0x01, 0x40, 0x00]
  else if _Offset = 0x502b8 then [0x00, 0x00, 0x80, 0x00]
  else List.replicate _Length 0

/-- A disc of 1000 clusters without partitions on which the write of cluster 10
fails and every other call into the C library succeeds. -/
def failingWriteHost : Host :=
  { blankHost 0x1F40000 with fwriteOk := fun i => decide (i ≠ 10) }

/-! ## Facts about the used-region marker -/

theorem CLUSTER_SIZE_eq : CLUSTER_SIZE = 32768 := rfl

theorem Marked.store_table (m : Marked) (i : Nat) :
    (m.store i).m_FreeTable = m.m_FreeTable.set i 0 := rfl

theorem Marked.store_stores (m : Marked) (i : Nat) :
    (m.store i).stores = i :: m.stores := rfl

/-- The loop keeps the number of cells. -/
theorem MarkAsUsedLoop_length (fs e : Nat) :
    ∀ (fuel cur : Nat) (m m' : Marked), MarkAsUsedLoop fs e fuel cur m = some m' →
      m'.m_FreeTable.length = m.m_FreeTable.length := by
  intro fuel
  induction fuel with
  | zero => intro cur m m' h; simp [MarkAsUsedLoop] at h
  | succ f ih =>
    intro cur m m' h
    rw [MarkAsUsedLoop] at h
    split at h
    · rw [ih _ _ _ h, Marked.store_table, List.length_set]
    · cases h; rfl

/-- Every cell after the loop is the cell before it or `0`. -/
theorem MarkAsUsedLoop_cell (fs e : Nat) :
    ∀ (fuel cur : Nat) (m m' : Marked), MarkAsUsedLoop fs e fuel cur m = some m' →
      ∀ c : Nat, m'.m_FreeTable[c]? = m.m_FreeTable[c]? ∨ m'.m_FreeTable[c]? = some 0 := by
  intro fuel
  induction fuel with
  | zero => intro cur m m' h; simp [MarkAsUsedLoop] at h
  | succ f ih =>
    intro cur m m' h c
    rw [MarkAsUsedLoop] at h
    split at h
    · rcases ih _ _ _ h c with h1 | h1
      · rw [h1, Marked.store_table]
        by_cases hc : cur / CLUSTER_SIZE = c
        · subst hc
          by_cases hl : cur / CLUSTER_SIZE < m.m_FreeTable.length
          · right; simp [List.getElem?_set, hl]
          · left; simp [List.getElem?_set, hl]; omega
        · left; simp [List.getElem?_set, hc]
      · right; exact h1
    · cases h; left; rfl

/-- A used cell stays used. -/
theorem MarkAsUsedLoop_used (fs e fuel cur : Nat) (m m' : Marked)
    (h : MarkAsUsedLoop fs e fuel cur m = some m') (c : Nat)
    (hc : m.m_FreeTable[c]? = some 0) : m'.m_FreeTable[c]? = some 0 := by
  rcases MarkAsUsedLoop_cell fs e fuel cur m m' h c with h1 | h1
  · rw [h1, hc]
  · exact h1

/-- The record of stores only grows. -/
theorem MarkAsUsedLoop_stores_mono (fs e : Nat) :
    ∀ (fuel cur : Nat) (m m' : Marked), MarkAsUsedLoop fs e fuel cur m = some m' →
      ∀ i ∈ m.stores, i ∈ m'.stores := by
  intro fuel
  induction fuel with
  | zero => intro cur m m' h; simp [MarkAsUsedLoop] at h
  | succ f ih =>
    intro cur m m' h i hi
    rw [MarkAsUsedLoop] at h
    split at h
    · exact ih _ _ _ h i (by rw [Marked.store_stores]; exact List.mem_cons_of_mem _ hi)
    · cases h; exact hi

/-- Every index the loop stores to is the cluster of an offset below both the
end of the range and the image size. -/
theorem MarkAsUsedLoop_stores_bound (fs e : Nat) :
    ∀ (fuel cur : Nat) (m m' : Marked), MarkAsUsedLoop fs e fuel cur m = some m' →
      ∀ i ∈ m'.stores, i ∈ m.stores ∨ (i * CLUSTER_SIZE < fs ∧ i * CLUSTER_SIZE < e) := by
  intro fuel
  induction fuel with
  | zero => intro cur m m' h; simp [MarkAsUsedLoop] at h
  | succ f ih =>
    intro cur m m' h i hi
    rw [MarkAsUsedLoop] at h
    split at h
    next hcond =>
      rcases ih _ _ _ h i hi with h1 | h1
      · rw [Marked.store_stores, List.mem_cons] at h1
        rcases h1 with h1 | h1
        · right
          subst h1
          have := Nat.div_mul_le_self cur CLUSTER_SIZE
          omega
        · left; exact h1
      · right; exact h1
    · cases h; left; exact hi

/-- Without wrap-around the loop stores to the cluster of every offset
`cur + k * CLUSTER_SIZE` that lies below the end of the range and the image
size, and that cluster, when it has a cell, is used afterwards. -/
theorem MarkAsUsedLoop_marks (fs e : Nat) (hfs : fs ≤ 2 ^ 64 ∨ e ≤ 2 ^ 64) :
    ∀ (fuel cur : Nat) (m m' : Marked), MarkAsUsedLoop fs e fuel cur m = some m' →
      ∀ k, cur + k * CLUSTER_SIZE < e → cur + k * CLUSTER_SIZE < fs →
        (cur + k * CLUSTER_SIZE) / CLUSTER_SIZE ∈ m'.stores ∧
        ((cur + k * CLUSTER_SIZE) / CLUSTER_SIZE < m.m_FreeTable.length →
          m'.m_FreeTable[(cur + k * CLUSTER_SIZE) / CLUSTER_SIZE]? = some 0) := by
  intro fuel
  induction fuel with
  | zero => intro cur m m' h; simp [MarkAsUsedLoop] at h
  | succ f ih =>
    intro cur m m' h k hk1 hk2
    rw [MarkAsUsedLoop] at h
    split at h
    next hcond =>
      cases k with
      | zero =>
        simp only [Nat.zero_mul, Nat.add_zero]
        refine ⟨MarkAsUsedLoop_stores_mono fs e _ _ _ _ h _ ?_, fun hl => ?_⟩
        · rw [Marked.store_stores]; exact List.mem_cons_self _ _
        · apply MarkAsUsedLoop_used fs e _ _ _ _ h
          rw [Marked.store_table]
          simp [List.getElem?_set, hl]
      | succ j =>
        have hw : u64 (cur + CLUSTER_SIZE) = cur + CLUSTER_SIZE := by
          unfold u64
          apply Nat.mod_eq_of_lt
          rw [CLUSTER_SIZE_eq] at *
          omega
        rw [hw] at h
        have e1 : cur + (j + 1) * CLUSTER_SIZE = cur + CLUSTER_SIZE + j * CLUSTER_SIZE := by
          rw [CLUSTER_SIZE_eq]; omega
        rw [e1] at hk1 hk2 ⊢
        have := ih _ _ _ h j hk1 hk2
        rw [Marked.store_table, List.length_set] at this
        exact this
    next hcond =>
      exfalso
      apply hcond
      constructor <;> omega

/-- The loop returns when the fuel covers the clusters up to the image size. -/
theorem MarkAsUsedLoop_total (fs e : Nat)
    (hfs : fs + CLUSTER_SIZE ≤ 2 ^ 64 ∨ e + CLUSTER_SIZE ≤ 2 ^ 64) :
    ∀ (fuel cur : Nat) (m : Marked), fs ≤ cur + fuel * CLUSTER_SIZE →
      ∃ m', MarkAsUsedLoop fs e (fuel + 1) cur m = some m' := by
  intro fuel
  induction fuel with
  | zero =>
    intro cur m h
    rw [MarkAsUsedLoop]
    split
    next hcond => omega
    · exact ⟨m, rfl⟩
  | succ f ih =>
    intro cur m h
    rw [MarkAsUsedLoop]
    split
    next hcond =>
      have hw : u64 (cur + CLUSTER_SIZE) = cur + CLUSTER_SIZE := by
        unfold u64
        apply Nat.mod_eq_of_lt
        omega
      rw [hw]
      apply ih
      rw [CLUSTER_SIZE_eq] at *
      omega
    · exact ⟨m, rfl⟩

/-- The instrumented run and the plain one agree on the cells, whatever the
initial record of stores. -/
theorem MarkAsUsedLoop_table_irrel (fs e : Nat) :
    ∀ (fuel cur : Nat) (m₁ m₂ : Marked), m₁.m_FreeTable = m₂.m_FreeTable →
      (MarkAsUsedLoop fs e fuel cur m₁).map Marked.m_FreeTable =
        (MarkAsUsedLoop fs e fuel cur m₂).map Marked.m_FreeTable := by
  intro fuel
  induction fuel with
  | zero => intro cur m₁ m₂ _; rfl
  | succ f ih =>
    intro cur m₁ m₂ h
    rw [MarkAsUsedLoop, MarkAsUsedLoop]
    split
    · apply ih
      rw [Marked.store_table, Marked.store_table, h]
    · simp [h]

/-- Shape of a successful `MarkAsUsed`. -/
theorem MarkAsUsed_eq_some (fs : Nat) (t t' : List Nat) (off sz : Nat)
    (h : MarkAsUsed fs t off sz = some t') :
    ∃ m', MarkAsUsedLoop fs (u64 (off + sz)) (fs / CLUSTER_SIZE + 2) off ⟨t, []⟩ = some m' ∧
      m'.m_FreeTable = t' := by
  unfold MarkAsUsed MarkAsUsedM at h
  simpa [Option.map_eq_some'] using h

/-- `MarkAsUsed` returns on every image whose size is not within one cluster of
the 64-bit limit. -/
theorem MarkAsUsed_total (fs : Nat) (t : List Nat) (off sz : Nat)
    (hfs : fs + CLUSTER_SIZE ≤ 2 ^ 64 ∨ u64 (off + sz) + CLUSTER_SIZE ≤ 2 ^ 64) :
    ∃ t', MarkAsUsed fs t off sz = some t' := by
  have hfuel : fs ≤ off + (fs / CLUSTER_SIZE + 1) * CLUSTER_SIZE := by
    have := Nat.div_add_mod fs CLUSTER_SIZE
    have := Nat.mod_lt fs (show CLUSTER_SIZE > 0 by decide)
    rw [CLUSTER_SIZE_eq] at *
    omega
  obtain ⟨m', hm'⟩ := MarkAsUsedLoop_total fs (u64 (off + sz)) hfs _ off ⟨t, []⟩ hfuel
  exact ⟨m'.m_FreeTable, by unfold MarkAsUsed MarkAsUsedM; simp [hm']⟩

/-- `MarkAsUsed` keeps the number of cells. -/
theorem MarkAsUsed_length (fs : Nat) (t t' : List Nat) (off sz : Nat)
    (h : MarkAsUsed fs t off sz = some t') : t'.length = t.length := by
  obtain ⟨m', hm', rfl⟩ := MarkAsUsed_eq_some fs t t' off sz h
  exact MarkAsUsedLoop_length _ _ _ _ _ _ hm'

/-- `MarkAsUsed` changes a cell only to `0`. -/
theorem MarkAsUsed_cell (fs : Nat) (t t' : List Nat) (off sz : Nat)
    (h : MarkAsUsed fs t off sz = some t') (c : Nat) :
    t'[c]? = t[c]? ∨ t'[c]? = some 0 := by
  obtain ⟨m', hm', rfl⟩ := MarkAsUsed_eq_some fs t t' off sz h
  exact MarkAsUsedLoop_cell _ _ _ _ _ _ hm' c

/-- `MarkAsUsed` never frees a used cluster. -/
theorem MarkAsUsed_used (fs : Nat) (t t' : List Nat) (off sz : Nat)
    (h : MarkAsUsed fs t off sz = some t') (c : Nat) (hc : t[c]? = some 0) :
    t'[c]? = some 0 := by
  rcases MarkAsUsed_cell fs t t' off sz h c with h1 | h1
  · rw [h1, hc]
  · exact h1

/-- `MarkAsUsedE` is `MarkAsUsed` on the compensated range. -/
theorem MarkAsUsedE_eq (fs : Nat) (t : List Nat) (B o n : Nat) :
    MarkAsUsedE fs t B o n =
      MarkAsUsed fs t (u64 (u64 (o / 0x7c00 * CLUSTER_SIZE) + B))
        (u64 (u64 ((n / 0x7c00 + 1) * CLUSTER_SIZE) + o % 0x7c00)) := rfl

/-- Without wrap-around, `MarkAsUsed` marks the cluster of every offset
`off + k * CLUSTER_SIZE` inside the range and the image. -/
theorem MarkAsUsed_marks (fs : Nat) (t t' : List Nat) (off sz : Nat)
    (h : MarkAsUsed fs t off sz = some t') (hno : off + sz < 2 ^ 64) (k : Nat)
    (hk1 : k * CLUSTER_SIZE < sz) (hk2 : off + k * CLUSTER_SIZE < fs)
    (hk3 : (off + k * CLUSTER_SIZE) / CLUSTER_SIZE < t.length) :
    t'[(off + k * CLUSTER_SIZE) / CLUSTER_SIZE]? = some 0 := by
  obtain ⟨m', hm', rfl⟩ := MarkAsUsed_eq_some fs t t' off sz h
  have he : u64 (off + sz) = off + sz := Nat.mod_eq_of_lt hno
  rw [he] at hm'
  exact (MarkAsUsedLoop_marks fs (off + sz) (Or.inr (by omega)) _ _ _ _ hm' k (by omega) hk2).2 hk3

/-- Without overflow the compensated range of `MarkAsUsedE` is computed exactly. -/
theorem MarkAsUsedE_exact (fs : Nat) (t : List Nat) (B o n : Nat)
    (hno : B + o / 0x7c00 * 0x8000 + ((n / 0x7c00 + 1) * 0x8000 + o % 0x7c00) < 2 ^ 64) :
    MarkAsUsedE fs t B o n =
      MarkAsUsed fs t (B + o / 0x7c00 * 0x8000) ((n / 0x7c00 + 1) * 0x8000 + o % 0x7c00) := by
  rw [MarkAsUsedE_eq]
  have h1 : u64 (o / 0x7c00 * CLUSTER_SIZE) = o / 0x7c00 * 0x8000 := by
    unfold u64; rw [CLUSTER_SIZE_eq]; apply Nat.mod_eq_of_lt; omega
  have h2 : u64 (o / 0x7c00 * 0x8000 + B) = B + o / 0x7c00 * 0x8000 := by
    unfold u64; rw [Nat.add_comm]; apply Nat.mod_eq_of_lt; omega
  have h3 : u64 ((n / 0x7c00 + 1) * CLUSTER_SIZE) = (n / 0x7c00 + 1) * 0x8000 := by
    unfold u64; rw [CLUSTER_SIZE_eq]; apply Nat.mod_eq_of_lt; omega
  have h4 : u64 ((n / 0x7c00 + 1) * 0x8000 + o % 0x7c00) =
      (n / 0x7c00 + 1) * 0x8000 + o % 0x7c00 := by
    unfold u64; apply Nat.mod_eq_of_lt; omega
  rw [h1, h2, h3, h4]

/-! ## More facts about the used-region marker -/

/-- Storing `0` into a cell that is used, or that does not exist, changes nothing. -/
theorem set_zero_of_used (t : List Nat) (i : Nat) (h : t[i]? = some 0 ∨ t.length ≤ i) :
    t.set i 0 = t := by
  apply List.ext_getElem?
  intro c
  rw [List.getElem?_set]
  by_cases hc : i = c
  · subst hc
    rcases h with h | h
    · have hl : i < t.length := by
        by_contra hl
        rw [List.getElem?_eq_none (by omega)] at h
        cases h
      simp [hl, h]
    · simp [List.getElem?_eq_none h, Nat.not_lt.mpr h]
  · simp [hc]

/-- A cell that the loop does not store to keeps its value. -/
theorem MarkAsUsedLoop_frame (fs e : Nat) :
    ∀ (fuel cur : Nat) (m m' : Marked), MarkAsUsedLoop fs e fuel cur m = some m' →
      ∀ c : Nat, c ∉ m'.stores → m'.m_FreeTable[c]? = m.m_FreeTable[c]? := by
  intro fuel
  induction fuel with
  | zero => intro cur m m' h; simp [MarkAsUsedLoop] at h
  | succ f ih =>
    intro cur m m' h c hc
    rw [MarkAsUsedLoop] at h
    split at h
    · rw [ih _ _ _ h c hc, Marked.store_table]
      have hne : cur / CLUSTER_SIZE ≠ c := by
        intro heq
        apply hc
        apply MarkAsUsedLoop_stores_mono fs e _ _ _ _ h
        rw [Marked.store_stores, heq]
        exact List.mem_cons_self _ _
      simp [List.getElem?_set, hne]
    · cases h; rfl

/-- Without wrap-around every index the loop stores to is at or after the
cluster of the starting offset. -/
theorem MarkAsUsedLoop_stores_lower (fs e : Nat)
    (hfs : fs + CLUSTER_SIZE ≤ 2 ^ 64 ∨ e + CLUSTER_SIZE ≤ 2 ^ 64) :
    ∀ (fuel cur : Nat) (m m' : Marked), MarkAsUsedLoop fs e fuel cur m = some m' →
      ∀ i ∈ m'.stores, i ∈ m.stores ∨ cur / CLUSTER_SIZE ≤ i := by
  intro fuel
  induction fuel with
  | zero => intro cur m m' h; simp [MarkAsUsedLoop] at h
  | succ f ih =>
    intro cur m m' h i hi
    rw [MarkAsUsedLoop] at h
    split at h
    next hcond =>
      have hw : u64 (cur + CLUSTER_SIZE) = cur + CLUSTER_SIZE := by
        unfold u64
        apply Nat.mod_eq_of_lt
        omega
      rw [hw] at h
      rcases ih _ _ _ h i hi with h1 | h1
      · rw [Marked.store_stores, List.mem_cons] at h1
        rcases h1 with h1 | h1
        · right; omega
        · left; exact h1
      · right
        rw [CLUSTER_SIZE_eq] at *
        omega
    · cases h; left; exact hi

/-- A table that is used wherever the result of a run is used, is a fixed
point of the same run. -/
theorem MarkAsUsedLoop_fixed (fs e : Nat) :
    ∀ (fuel cur : Nat) (m m' : Marked), MarkAsUsedLoop fs e fuel cur m = some m' →
      ∀ (t : List Nat) (s : List Nat), t.length = m.m_FreeTable.length →
        (∀ c : Nat, m'.m_FreeTable[c]? = some 0 → t[c]? = some 0) →
        (MarkAsUsedLoop fs e fuel cur ⟨t, s⟩).map Marked.m_FreeTable = some t := by
  intro fuel
  induction fuel with
  | zero => intro cur m m' h; simp [MarkAsUsedLoop] at h
  | succ f ih =>
    intro cur m m' h t s hl ht
    rw [MarkAsUsedLoop] at h ⊢
    split at h
    next hcond =>
      rw [if_pos hcond]
      have hset : t.set (cur / CLUSTER_SIZE) 0 = t := by
        apply set_zero_of_used
        by_cases hlt : cur / CLUSTER_SIZE < t.length
        · left
          apply ht
          apply MarkAsUsedLoop_used fs e _ _ _ _ h
          rw [Marked.store_table]
          rw [hl] at hlt
          simp [List.getElem?_set, hlt]
        · right; omega
      have := ih _ _ _ h t (cur / CLUSTER_SIZE :: s)
        (by rw [hl, Marked.store_table, List.length_set]) ht
      simpa [Marked.store, hset] using this
    next hcond =>
      rw [if_neg hcond]
      rfl

/-- Twice is once. -/
theorem MarkAsUsed_twice (fs : Nat) (t t' : List Nat) (off sz : Nat)
    (h : MarkAsUsed fs t off sz = some t') : MarkAsUsed fs t' off sz = some t' := by
  obtain ⟨m', hm', rfl⟩ := MarkAsUsed_eq_some fs t t' off sz h
  unfold MarkAsUsed MarkAsUsedM
  exact MarkAsUsedLoop_fixed fs _ _ _ _ _ hm' m'.m_FreeTable []
    (MarkAsUsedLoop_length _ _ _ _ _ _ hm') (fun _ hc => hc)

/-- The stores of a run from the empty record, without wrap-around, lie between the cluster of
the first offset and the end of the range. -/
theorem MarkAsUsedM_stores_range (fs : Nat) (t : List Nat) (off sz : Nat) (m' : Marked)
    (hfs : fs + CLUSTER_SIZE ≤ 2 ^ 64 ∨ u64 (off + sz) + CLUSTER_SIZE ≤ 2 ^ 64)
    (h : MarkAsUsedM fs ⟨t, []⟩ off sz = some m') :
    ∀ i ∈ m'.stores, off / CLUSTER_SIZE ≤ i ∧ i * CLUSTER_SIZE < fs ∧
      i * CLUSTER_SIZE < u64 (off + sz) := by
  intro i hi
  unfold MarkAsUsedM at h
  have h1 := MarkAsUsedLoop_stores_lower fs _ hfs _ _ _ _ h i hi
  have h2 := MarkAsUsedLoop_stores_bound fs _ _ _ _ _ h i hi
  simp at h1 h2
  exact ⟨h1, h2⟩

/-- A run all of whose stores hit used cells leaves the table as it is. -/
theorem MarkAsUsedLoop_unchanged (fs e : Nat)
    (hfs : fs + CLUSTER_SIZE ≤ 2 ^ 64 ∨ e + CLUSTER_SIZE ≤ 2 ^ 64) :
    ∀ (fuel cur : Nat) (m m' : Marked), MarkAsUsedLoop fs e fuel cur m = some m' →
      (∀ c : Nat, c < m.m_FreeTable.length → cur / CLUSTER_SIZE ≤ c → c * CLUSTER_SIZE < e →
        c * CLUSTER_SIZE < fs → m.m_FreeTable[c]? = some 0) →
      m'.m_FreeTable = m.m_FreeTable := by
  intro fuel
  induction fuel with
  | zero => intro cur m m' h; simp [MarkAsUsedLoop] at h
  | succ f ih =>
    intro cur m m' h hu
    rw [MarkAsUsedLoop] at h
    split at h
    next hcond =>
      have hw : u64 (cur + CLUSTER_SIZE) = cur + CLUSTER_SIZE := by
        unfold u64
        apply Nat.mod_eq_of_lt
        omega
      rw [hw] at h
      have hdm := Nat.div_mul_le_self cur CLUSTER_SIZE
      have hset : m.m_FreeTable.set (cur / CLUSTER_SIZE) 0 = m.m_FreeTable := by
        apply set_zero_of_used
        by_cases hlt : cur / CLUSTER_SIZE < m.m_FreeTable.length
        · left; exact hu _ hlt (Nat.le_refl _) (by omega) (by omega)
        · right; omega
      have := ih _ _ _ h (by
        intro c hc1 hc2 hc3 hc4
        rw [Marked.store_table, hset] at hc1 ⊢
        apply hu c hc1 _ hc3 hc4
        rw [CLUSTER_SIZE_eq] at *
        omega)
      rw [this, Marked.store_table, hset]
    · cases h; rfl

/-! ## Facts about host memory and the volume readers -/

theorem toBytesLE_four (x : Nat) :
    toBytesLE 4 x = [x % 256, x / 256 % 256, x / 256 / 256 % 256, x / 256 / 256 / 256 % 256] :=
  rfl

theorem toBytesLE_eight_drop (x : Nat) :
    (toBytesLE 8 x).drop 4 = toBytesLE 4 (x / 256 / 256 / 256 / 256) := rfl

theorem toBytesLE_length (w x : Nat) : (toBytesLE w x).length = w := by
  induction w generalizing x with
  | zero => rfl
  | succ w ih => simp [toBytesLE, ih]

/-- Four bytes stored over a 32-bit variable replace its value. -/
theorem pokeLE_four (old b0 b1 b2 b3 : Nat) (h0 : b0 < 256) (h1 : b1 < 256) (h2 : b2 < 256)
    (h3 : b3 < 256) :
    pokeLE 4 old [b0, b1, b2, b3] = b0 + 256 * b1 + 65536 * b2 + 16777216 * b3 := by
  simp [pokeLE, ofBytesLE, toBytesLE_length]
  omega

/-- Four bytes stored over a 64-bit variable replace its low half. -/
theorem pokeLE_eight (old b0 b1 b2 b3 : Nat) (h0 : b0 < 256) (h1 : b1 < 256) (h2 : b2 < 256)
    (h3 : b3 < 256) :
    u32 (pokeLE 8 old [b0, b1, b2, b3]) = b0 + 256 * b1 + 65536 * b2 + 16777216 * b3 := by
  unfold pokeLE u32
  rw [show ([b0, b1, b2, b3] : List Nat).length = 4 from rfl, toBytesLE_eight_drop,
    toBytesLE_four]
  simp [ofBytesLE]
  omega

theorem swap32_bytes (b0 b1 b2 b3 : Nat) (h0 : b0 < 256) (h1 : b1 < 256) (h2 : b2 < 256)
    (h3 : b3 < 256) :
    swap32 (b0 + 256 * b1 + 65536 * b2 + 16777216 * b3) = be32 b0 b1 b2 b3 := by
  unfold swap32 be32
  rw [toBytesLE_four]
  simp [ofBytesLE]
  omega

/-! ## Facts about the executable extent scanner -/

/-- A read that delivers at least `width` bytes overwrites the whole variable. -/
theorem pokeLE_full (width old old' : Nat) (bs : List Nat) (h : width ≤ bs.length) :
    pokeLE width old bs = pokeLE width old' bs := by
  unfold pokeLE
  rw [List.take_append_of_le_length h, List.take_append_of_le_length h]

theorem ofBytesLE_lt (bs : List Nat) : ofBytesLE bs < 256 ^ bs.length := by
  induction bs with
  | nil => simp [ofBytesLE]
  | cons b bs ih =>
    simp only [ofBytesLE, List.length_cons, pow_succ]
    have := Nat.mod_lt b (show 256 > 0 by decide)
    omega

/-- One step of the scan of `GetDOLSize` in terms of the two fields it reads. -/
theorem GetDOLSizeStep_max (Read : Nat → Nat → List Nat) (dol a b : Nat)
    (hR : ∀ off, 4 ≤ (Read off 4).length) (s : DolScan) (i : Nat) :
    (GetDOLSizeStep Read dol a b s i).max =
      max s.max (u32 (field32 Read (u64 (dol + a + i * 4)) + field32 Read (u64 (dol + b + i * 4)))) := by
  unfold GetDOLSizeStep field32 ReadFromVolume_u32
  simp only
  rw [pokeLE_full 4 s.offset 0 _ (hR _), pokeLE_full 4 s.size 0 _ (hR _)]
  split <;> omega

theorem GetDOLSize_fold (Read : Nat → Nat → List Nat) (dol a b : Nat)
    (hR : ∀ off, 4 ≤ (Read off 4).length) (l : List Nat) :
    ∀ s : DolScan, (l.foldl (GetDOLSizeStep Read dol a b) s).max =
      (l.map (fun i => (field32 Read (u64 (dol + a + i * 4)),
        field32 Read (u64 (dol + b + i * 4))))).foldl (fun m s => max m (u32 (s.1 + s.2))) s.max := by
  induction l with
  | nil => intro s; rfl
  | cons i l ih =>
    intro s
    simp only [List.foldl_cons, List.map_cons]
    rw [ih, GetDOLSizeStep_max Read dol a b hR]

theorem maxExtent32_eq (segs : List (Nat × Nat)) (h : ∀ s ∈ segs, s.1 + s.2 < 2 ^ 32) :
    ∀ m, segs.foldl (fun m s => max m (u32 (s.1 + s.2))) m =
      segs.foldl (fun m s => max m (s.1 + s.2)) m := by
  induction segs with
  | nil => intro m; rfl
  | cons s segs ih =>
    intro m
    simp only [List.foldl_cons]
    rw [ih (fun s hs => h s (List.mem_cons_of_mem _ hs))]
    have : u32 (s.1 + s.2) = s.1 + s.2 := Nat.mod_eq_of_lt (h s (List.mem_cons_self _ _))
    rw [this]

/-! ## Facts about files and the idempotency marker -/

theorem fwriteAt_length (f : List Nat) (pos : Nat) (d : List Nat) :
    (fwriteAt f pos d).length = max f.length (pos + d.length) := by
  unfold fwriteAt
  simp only [List.length_append, List.length_take, List.length_replicate, List.length_drop]
  omega

/-- The bytes of a file after a write. -/
theorem fwriteAt_get (f : List Nat) (pos : Nat) (d : List Nat) (p : Nat) :
    (fwriteAt f pos d)[p]? =
      if p < pos then (if p < f.length then f[p]? else some 0)
      else if p < pos + d.length then d[p - pos]? else f[p]? := by
  unfold fwriteAt
  have hpre : (f.take pos ++ List.replicate (pos - f.length) 0).length = pos := by
    simp only [List.length_append, List.length_take, List.length_replicate]; omega
  rw [List.append_assoc (f.take pos ++ List.replicate (pos - f.length) 0)]
  by_cases h1 : p < pos
  · rw [if_pos h1, List.getElem?_append_left (by omega)]
    by_cases h2 : p < f.length
    · rw [if_pos h2, List.getElem?_append_left (by simp; omega), List.getElem?_take_of_lt h1]
    · rw [if_neg h2, List.getElem?_append_right (by simp; omega)]
      rw [List.getElem?_replicate]
      simp only [List.length_take]
      rw [if_pos (by omega)]
  · rw [if_neg h1, List.getElem?_append_right (by omega), hpre]
    by_cases h2 : p < pos + d.length
    · rw [if_pos h2, List.getElem?_append_left (by omega)]
    · rw [if_neg h2, List.getElem?_append_right (by omega), List.getElem?_drop]
      congr 1
      omega

theorem IsScrubbed_short (file : List Nat) (h : file.length ≤ 0x80) :
    IsScrubbed (some file) = SCRUBBER_VERSION := by
  unfold IsScrubbed
  simp only
  rw [List.drop_of_length_le h]
  rfl

theorem IsScrubbed_flag (file : List Nat) (b : Nat) (rest : List Nat) (hb : b < 256)
    (h : file.drop 0x80 = b :: 0 :: 0 :: 0 :: rest) : IsScrubbed (some file) = b := by
  unfold IsScrubbed
  simp only
  rw [h]
  show pokeLE 4 SCRUBBER_VERSION [b, 0, 0, 0] = b
  simp [pokeLE, ofBytesLE, toBytesLE_length]
  omega

theorem IsScrubbed_pos (file : List Nat) (b : Nat) (rest : List Nat) (hb : b % 256 ≠ 0)
    (h : file.drop 0x80 = b :: rest) : IsScrubbed (some file) ≠ 0 := by
  unfold IsScrubbed
  simp only
  rw [h]
  unfold pokeLE
  simp only [List.take_succ_cons, List.cons_append, ofBytesLE]
  omega

theorem Scrub_already (host : Host) (PG : List SPartitionGroup) (file : List Nat)
    (hp : host.fopenProbe = true) (h : IsScrubbed (some file) ≠ 0)
    (h1 : SCRUBBER_VERSION ≤ IsScrubbed (some file)) :
    Scrub host PG file = ⟨Exit.returned true, file, [Event.callbackAlreadyScrubbed]⟩ := by
  unfold Scrub
  simp only [hp, if_true]
  rw [if_neg (by omega), if_pos h]

theorem Scrub_proceeds (host : Host) (PG : List SPartitionGroup) (file : List Nat)
    (h : IsScrubbed (if host.fopenProbe then some file else none) = 0) :
    Scrub host PG file = ScrubRun host PG file [] := by
  unfold Scrub
  simp only [h]
  simp

/-! ## Facts about the rewrite loop -/

theorem m_Sector1_length : m_Sector1.length = CLUSTER_SIZE := by
  unfold m_Sector1; simp

theorem m_Sector1_get (q : Nat) (h : q < CLUSTER_SIZE) : m_Sector1[q]? = some 0xFF := by
  unfold m_Sector1
  rw [List.getElem?_replicate, if_pos h]

theorem RewriteLoop_succ (host : Host) (n : Nat) (tbl : List Nat) (k i : Nat) (s : Rewrite) :
    RewriteLoop host n tbl (k + 1) i s =
      if (decide (tbl.getD i 0 ≠ 0) && !(RewriteBody host tbl i s).success) = true then
        { RewriteBody host tbl i s with
          events := (RewriteBody host tbl i s).events ++ [Event.PanicAlert] }
      else if n / 1000 = 0 then
        { RewriteBody host tbl i s with divZero := true }
      else
        RewriteLoop host n tbl k (i + 1) (RewriteProgress n i (RewriteBody host tbl i s)) := by
  rw [RewriteLoop]
  unfold RewriteBody RewriteProgress
  by_cases hf : tbl.getD i 0 ≠ 0 <;> simp [hf]

theorem RewriteBody_success (host : Host) (tbl : List Nat) (i : Nat) (s : Rewrite)
    (h : s.success = true) : (RewriteBody host tbl i s).success = true := by
  unfold RewriteBody
  split <;> simp [h]

theorem RewriteBody_divZero (host : Host) (tbl : List Nat) (i : Nat) (s : Rewrite) :
    (RewriteBody host tbl i s).divZero = s.divZero := by
  unfold RewriteBody
  split <;> rfl

theorem RewriteProgress_file (n i : Nat) (s : Rewrite) :
    (RewriteProgress n i s).file = s.file := by
  unfold RewriteProgress
  split <;> rfl

theorem RewriteProgress_success (n i : Nat) (s : Rewrite) :
    (RewriteProgress n i s).success = s.success := by
  unfold RewriteProgress
  split <;> rfl

theorem RewriteProgress_divZero (n i : Nat) (s : Rewrite) :
    (RewriteProgress n i s).divZero = s.divZero := by
  unfold RewriteProgress
  split <;> rfl

/-- The loop never clears `success`. -/
theorem RewriteLoop_success (host : Host) (n : Nat) (tbl : List Nat) :
    ∀ (k i : Nat) (s : Rewrite), s.success = true →
      (RewriteLoop host n tbl k i s).success = true := by
  intro k
  induction k with
  | zero => intro i s h; exact h
  | succ k ih =>
    intro i s h
    have hb := RewriteBody_success host tbl i s h
    rw [RewriteLoop_succ]
    simp only [hb, Bool.not_true, Bool.and_false, Bool.false_eq_true, if_false]
    by_cases hn : n / 1000 = 0
    · rw [if_pos hn]
    · rw [if_neg hn]
      exact ih _ _ (by rw [RewriteProgress_success]; exact hb)

/-- With a nonzero progress step the loop runs to its end without a division by zero. -/
theorem RewriteLoop_divZero_false (host : Host) (n : Nat) (tbl : List Nat) (hn : n / 1000 ≠ 0) :
    ∀ (k i : Nat) (s : Rewrite), s.divZero = false →
      (RewriteLoop host n tbl k i s).divZero = false := by
  intro k
  induction k with
  | zero => intro i s h; exact h
  | succ k ih =>
    intro i s h
    rw [RewriteLoop_succ]
    by_cases hc : (decide (tbl.getD i 0 ≠ 0) && !(RewriteBody host tbl i s).success) = true
    · rw [if_pos hc]
      show (RewriteBody host tbl i s).divZero = false
      rw [RewriteBody_divZero]
      exact h
    · rw [if_neg hc, if_neg hn]
      apply ih
      rw [RewriteProgress_divZero, RewriteBody_divZero]
      exact h

/-- With a zero progress step the first pass through the loop divides by zero. -/
theorem RewriteLoop_divZero_true (host : Host) (n : Nat) (tbl : List Nat) (hn : n / 1000 = 0)
    (k i : Nat) (s : Rewrite) (h : s.success = true) :
    RewriteLoop host n tbl (k + 1) i s = { RewriteBody host tbl i s with divZero := true } := by
  have hb := RewriteBody_success host tbl i s h
  rw [RewriteLoop_succ]
  simp only [hb, Bool.not_true, Bool.and_false, Bool.false_eq_true, if_false]
  rw [if_pos hn]

theorem RewriteBody_file_get (host : Host) (tbl : List Nat) (i : Nat) (s : Rewrite)
    (hi : (i + 1) * CLUSTER_SIZE ≤ 2 ^ 64) (p : Nat) (hp : p < s.file.length)
    (hout : tbl.getD i 0 ≠ 0 → ¬ (i * CLUSTER_SIZE ≤ p ∧ p < (i + 1) * CLUSTER_SIZE)) :
    (RewriteBody host tbl i s).file[p]? = s.file[p]? := by
  have hu : u64 (i * CLUSTER_SIZE) = i * CLUSTER_SIZE := by
    unfold u64; apply Nat.mod_eq_of_lt; rw [CLUSTER_SIZE_eq] at *; omega
  unfold RewriteBody
  split
  next hf =>
    simp only
    split
    · rw [fwriteAt_get, hu, m_Sector1_length]
      have := hout hf
      by_cases h1 : p < i * CLUSTER_SIZE
      · rw [if_pos h1, if_pos hp]
      · rw [if_neg h1, if_neg (by rw [CLUSTER_SIZE_eq] at *; omega)]
    · rfl
  · rfl

theorem RewriteBody_file_length (host : Host) (tbl : List Nat) (i : Nat) (s : Rewrite) :
    s.file.length ≤ (RewriteBody host tbl i s).file.length := by
  unfold RewriteBody
  split
  · simp only
    split
    · rw [fwriteAt_length]; omega
    · exact Nat.le_refl _
  · exact Nat.le_refl _

theorem RewriteBody_file_length_eq (host : Host) (tbl : List Nat) (i : Nat) (s : Rewrite)
    (hi : (i + 1) * CLUSTER_SIZE ≤ 2 ^ 64) (hl : (i + 1) * CLUSTER_SIZE ≤ s.file.length) :
    (RewriteBody host tbl i s).file.length = s.file.length := by
  have hu : u64 (i * CLUSTER_SIZE) = i * CLUSTER_SIZE := by
    unfold u64; apply Nat.mod_eq_of_lt; rw [CLUSTER_SIZE_eq] at *; omega
  unfold RewriteBody
  split
  · simp only
    split
    · rw [fwriteAt_length, hu, m_Sector1_length]; rw [CLUSTER_SIZE_eq] at *; omega
    · rfl
  · rfl

/-- The loop does not shorten the file. -/
theorem RewriteLoop_length_le (host : Host) (n : Nat) (tbl : List Nat) :
    ∀ (k i : Nat) (s : Rewrite), s.file.length ≤ (RewriteLoop host n tbl k i s).file.length := by
  intro k
  induction k with
  | zero => intro i s; exact Nat.le_refl _
  | succ k ih =>
    intro i s
    have hb := RewriteBody_file_length host tbl i s
    rw [RewriteLoop_succ]
    split
    · exact hb
    · split
      · exact hb
      · refine Nat.le_trans ?_ (ih _ _)
        rw [RewriteProgress_file]
        exact hb

/-- The loop keeps the length of a file that holds all the clusters. -/
theorem RewriteLoop_length (host : Host) (n : Nat) (tbl : List Nat) :
    ∀ (k i : Nat) (s : Rewrite), (i + k) * CLUSTER_SIZE ≤ 2 ^ 64 →
      (i + k) * CLUSTER_SIZE ≤ s.file.length →
      (RewriteLoop host n tbl k i s).file.length = s.file.length := by
  intro k
  induction k with
  | zero => intro i s _ _; rfl
  | succ k ih =>
    intro i s h64 hl
    have hb := RewriteBody_file_length_eq host tbl i s
      (by rw [CLUSTER_SIZE_eq] at *; omega) (by rw [CLUSTER_SIZE_eq] at *; omega)
    rw [RewriteLoop_succ]
    split
    · exact hb
    · split
      · exact hb
      · rw [ih _ _ (by rw [CLUSTER_SIZE_eq] at *; omega)
          (by rw [RewriteProgress_file, hb, CLUSTER_SIZE_eq] at *; omega),
          RewriteProgress_file, hb]

/-- The loop changes no byte outside the free clusters it visits. -/
theorem RewriteLoop_frame (host : Host) (n : Nat) (tbl : List Nat) :
    ∀ (k i : Nat) (s : Rewrite), (i + k) * CLUSTER_SIZE ≤ 2 ^ 64 →
      ∀ p : Nat, p < s.file.length →
        (∀ j, i ≤ j → j < i + k → tbl.getD j 0 ≠ 0 →
          ¬ (j * CLUSTER_SIZE ≤ p ∧ p < (j + 1) * CLUSTER_SIZE)) →
        (RewriteLoop host n tbl k i s).file[p]? = s.file[p]? := by
  intro k
  induction k with
  | zero => intro i s _ p _ _; rfl
  | succ k ih =>
    intro i s h64 p hp hout
    have hb := RewriteBody_file_get host tbl i s (by rw [CLUSTER_SIZE_eq] at *; omega) p hp
      (hout i (Nat.le_refl _) (by omega))
    rw [RewriteLoop_succ]
    split
    · exact hb
    · split
      · exact hb
      · rw [ih _ _ (by rw [CLUSTER_SIZE_eq] at *; omega) p
          (by rw [RewriteProgress_file]
              exact Nat.lt_of_lt_of_le hp (RewriteBody_file_length host tbl i s))
          (fun j hj1 hj2 => hout j (by omega) (by omega)),
          RewriteProgress_file, hb]

/-- When every write succeeds and the progress step is nonzero, every free
cluster the loop visits ends as 0xFF bytes. -/
theorem RewriteLoop_fills (host : Host) (n : Nat) (tbl : List Nat) (hn : n / 1000 ≠ 0)
    (hok : ∀ j, host.fwriteOk j = true) :
    ∀ (k i : Nat) (s : Rewrite), s.success = true → (i + k) * CLUSTER_SIZE ≤ 2 ^ 64 →
      ∀ j, i ≤ j → j < i + k → tbl.getD j 0 ≠ 0 →
        ∀ p, j * CLUSTER_SIZE ≤ p → p < (j + 1) * CLUSTER_SIZE →
          (RewriteLoop host n tbl k i s).file[p]? = some 0xFF := by
  intro k
  induction k with
  | zero => intro i s _ _ j hj1 hj2; omega
  | succ k ih =>
    intro i s hs h64 j hj1 hj2 hfree p hp1 hp2
    have hb := RewriteBody_success host tbl i s hs
    rw [RewriteLoop_succ]
    simp only [hb, Bool.not_true, Bool.and_false, Bool.false_eq_true, if_false]
    rw [if_neg hn]
    by_cases hji : j = i
    · subst hji
      have hu : u64 (j * CLUSTER_SIZE) = j * CLUSTER_SIZE := by
        unfold u64; apply Nat.mod_eq_of_lt; rw [CLUSTER_SIZE_eq] at *; omega
      have hfile : (RewriteBody host tbl j s).file =
          fwriteAt s.file (j * CLUSTER_SIZE) m_Sector1 := by
        unfold RewriteBody
        rw [if_pos hfree]
        simp only [hok j, if_true, hu]
      have hcell : (RewriteBody host tbl j s).file[p]? = some 0xFF := by
        rw [hfile, fwriteAt_get, m_Sector1_length, if_neg (by omega),
          if_pos (by rw [CLUSTER_SIZE_eq] at *; omega)]
        exact m_Sector1_get _ (by rw [CLUSTER_SIZE_eq] at *; omega)
      have hlen : p < (RewriteBody host tbl j s).file.length := by
        rw [hfile, fwriteAt_length, m_Sector1_length]
        rw [CLUSTER_SIZE_eq] at *
        omega
      rw [RewriteLoop_frame host n tbl k (j + 1) _ (by rw [CLUSTER_SIZE_eq] at *; omega) p
        (by rw [RewriteProgress_file]; exact hlen)
        (fun j' hj1' _ _ => by rw [CLUSTER_SIZE_eq] at *; omega),
        RewriteProgress_file, hcell]
    · exact ih _ _ (by rw [RewriteProgress_success]; exact hb)
        (by rw [CLUSTER_SIZE_eq] at *; omega) j (by omega) (by omega) hfree p hp1 hp2

/-! ## Facts about the parser: it returns and keeps what is marked -/

theorem Keeps_refl (t : List Nat) : Keeps t t := ⟨rfl, fun _ h => h⟩

theorem Keeps_trans (t₁ t₂ t₃ : List Nat) (h₁ : Keeps t₁ t₂) (h₂ : Keeps t₂ t₃) : Keeps t₁ t₃ :=
  ⟨h₂.1.trans h₁.1, fun c hc => h₂.2 c (h₁.2 c hc)⟩

theorem bind_keeps {β : Type} (x : Option (List Nat)) (f : List Nat → Option β) (t : List Nat)
    (Q : β → Prop) (hx : ∃ t', x = some t' ∧ Keeps t t')
    (hf : ∀ t', Keeps t t' → ∃ r, f t' = some r ∧ Q r) : ∃ r, x.bind f = some r ∧ Q r := by
  obtain ⟨t', rfl, hk⟩ := hx
  exact hf t' hk

theorem MarkAsUsed_keeps (fs : Nat) (hfs : fs + CLUSTER_SIZE ≤ 2 ^ 64) (t₀ t : List Nat)
    (off sz : Nat) (h : Keeps t₀ t) : ∃ t', MarkAsUsed fs t off sz = some t' ∧ Keeps t₀ t' := by
  obtain ⟨t', ht'⟩ := MarkAsUsed_total fs t off sz (Or.inl hfs)
  exact ⟨t', ht', Keeps_trans _ _ _ h
    ⟨MarkAsUsed_length _ _ _ _ _ ht', MarkAsUsed_used _ _ _ _ _ ht'⟩⟩

theorem MarkAsUsedE_keeps (fs : Nat) (hfs : fs + CLUSTER_SIZE ≤ 2 ^ 64) (t₀ t : List Nat)
    (B o n : Nat) (h : Keeps t₀ t) :
    ∃ t', MarkAsUsedE fs t B o n = some t' ∧ Keeps t₀ t' := by
  rw [MarkAsUsedE_eq]
  exact MarkAsUsed_keeps fs hfs t₀ t _ _ h

theorem MarkFiles_keeps (fs : Nat) (hfs : fs + CLUSTER_SIZE ≤ 2 ^ 64) (DataBase : Nat)
    (t₀ : List Nat) :
    ∀ (Files : List SFileInfo) (t : List Nat), Keeps t₀ t →
      ∃ t', MarkFiles fs DataBase Files t = some t' ∧ Keeps t₀ t' := by
  intro Files
  induction Files with
  | nil => intro t h; exact ⟨t, rfl, h⟩
  | cons f Files ih =>
    intro t h
    rw [MarkFiles]
    refine bind_keeps _ _ t₀ _ ?_ (fun t' h' => ih t' h')
    split
    · exact MarkAsUsedE_keeps fs hfs t₀ t _ _ _ h
    · exact MarkAsUsedE_keeps fs hfs t₀ t _ _ _ h

theorem ParsePartitionData_keeps (host : Host) (fs : Nat) (hfs : fs + CLUSTER_SIZE ≤ 2 ^ 64)
    (t₀ t : List Nat) (p : SPartition) (h : Keeps t₀ t) :
    ∃ r, ParsePartitionData host fs t p = some r ∧ Keeps t₀ r.2 := by
  unfold ParsePartitionData
  simp only
  refine bind_keeps _ _ t₀ _ (MarkAsUsedE_keeps fs hfs t₀ t _ _ _ h) (fun t₁ h₁ => ?_)
  refine bind_keeps _ _ t₀ _ (MarkAsUsedE_keeps fs hfs t₀ t₁ _ _ _ h₁) (fun t₂ h₂ => ?_)
  refine bind_keeps _ _ t₀ _ (MarkAsUsedE_keeps fs hfs t₀ t₂ _ _ _ h₂) (fun t₃ h₃ => ?_)
  obtain ⟨t₄, e₄, h₄⟩ := MarkFiles_keeps fs hfs _ t₀ _ t₃ h₃
  rw [e₄]
  exact ⟨_, rfl, h₄⟩

theorem MarkPartitions_keeps (host : Host) (fs : Nat) (hfs : fs + CLUSTER_SIZE ≤ 2 ^ 64)
    (t₀ : List Nat) :
    ∀ (ps : List SPartition) (t : List Nat), Keeps t₀ t →
      ∃ r, MarkPartitions host fs ps t = some r ∧ Keeps t₀ r.2 := by
  intro ps
  induction ps with
  | nil => intro t h; exact ⟨_, rfl, h⟩
  | cons p ps ih =>
    intro t h
    rw [MarkPartitions]
    refine bind_keeps _ _ t₀ _ (MarkAsUsed_keeps fs hfs t₀ t _ _ h) (fun t₁ h₁ => ?_)
    refine bind_keeps _ _ t₀ _ (MarkAsUsed_keeps fs hfs t₀ t₁ _ _ h₁) (fun t₂ h₂ => ?_)
    refine bind_keeps _ _ t₀ _ (MarkAsUsed_keeps fs hfs t₀ t₂ _ _ h₂) (fun t₃ h₃ => ?_)
    refine bind_keeps _ _ t₀ _ (MarkAsUsed_keeps fs hfs t₀ t₃ _ _ h₃) (fun t₄ h₄ => ?_)
    obtain ⟨r, er, hr⟩ := ParsePartitionData_keeps host fs hfs t₀ t₄ p h₄
    rw [er]
    obtain ⟨rs, ers, hrs⟩ := ih r.2 hr
    simp only [Option.some_bind, ers, Option.map_some']
    exact ⟨_, rfl, hrs⟩

theorem ParseGroup_keeps (host : Host) (fs : Nat) (hfs : fs + CLUSTER_SIZE ≤ 2 ^ 64)
    (t₀ t : List Nat) (x : Nat) (g : SPartitionGroup) (h : Keeps t₀ t) :
    ∃ r, ParseGroup host fs x g t = some r ∧ Keeps t₀ r.2 := by
  unfold ParseGroup
  simp only
  obtain ⟨r, er, hr⟩ := MarkPartitions_keeps host fs hfs t₀ _ t h
  rw [er]
  exact ⟨_, rfl, hr⟩

theorem ParseGroups_keeps (host : Host) (fs : Nat) (hfs : fs + CLUSTER_SIZE ≤ 2 ^ 64)
    (t₀ : List Nat) :
    ∀ (gs : List SPartitionGroup) (x : Nat) (t : List Nat), Keeps t₀ t →
      ∃ r, ParseGroups host fs x gs t = some r ∧ Keeps t₀ r.2 := by
  intro gs
  induction gs with
  | nil => intro x t h; exact ⟨_, rfl, h⟩
  | cons g gs ih =>
    intro x t h
    rw [ParseGroups]
    obtain ⟨r, er, hr⟩ := ParseGroup_keeps host fs hfs t₀ t x g h
    rw [er]
    obtain ⟨rs, ers, hrs⟩ := ih (x + 1) r.2 hr
    simp only [Option.some_bind, ers, Option.map_some']
    exact ⟨_, rfl, hrs⟩

/-- `ParseDisc` returns, and its bitmap keeps the cells marked by its first statement. -/
theorem ParseDisc_keeps (host : Host) (fs : Nat) (hfs : fs + CLUSTER_SIZE ≤ 2 ^ 64)
    (PG : List SPartitionGroup) (t : List Nat) :
    ∃ t₁ r, MarkAsUsed fs t 0 0x50000 = some t₁ ∧ ParseDisc host fs PG t = some r ∧
      Keeps t t₁ ∧ Keeps t₁ r.2 := by
  obtain ⟨t₁, e₁, h₁⟩ := MarkAsUsed_keeps fs hfs t t 0 0x50000 (Keeps_refl t)
  obtain ⟨r, er, hr⟩ := ParseGroups_keeps host fs hfs t₁ PG 0 t₁ (Keeps_refl t₁)
  refine ⟨t₁, r, e₁, ?_, h₁, hr⟩
  unfold ParseDisc
  rw [e₁]
  exact er

/-! ## Facts about the parser: the clusters of the files are marked -/

theorem RewriteBody_used (host : Host) (tbl : List Nat) (i : Nat) (s : Rewrite)
    (h : tbl.getD i 0 = 0) : RewriteBody host tbl i s = s := by
  unfold RewriteBody
  rw [if_neg (not_not.mpr h)]

theorem RewriteBody_events (host : Host) (tbl : List Nat) (i : Nat) (s : Rewrite) :
    (RewriteBody host tbl i s).events = s.events ++
      (if tbl.getD i 0 ≠ 0 then
        [Event.fwriteCluster (u64 (i * CLUSTER_SIZE)) (host.fwriteOk i)] else []) := by
  unfold RewriteBody
  split <;> simp

theorem RewriteProgress_events (n i : Nat) (s : Rewrite) :
    (RewriteProgress n i s).events = s.events ++
      (if i % (n / 1000) = 0 then [Event.callbackProgress i] else []) := by
  unfold RewriteProgress
  split <;> simp

/-- The events of a run of the loop that keeps `success`: those before it, and
for every free cluster visited the attempt to write it, failed or not. -/
theorem RewriteLoop_events (host : Host) (n : Nat) (tbl : List Nat) (hn : n / 1000 ≠ 0) :
    ∀ (k i : Nat) (s : Rewrite), s.success = true → (i + k) * CLUSTER_SIZE ≤ 2 ^ 64 →
      (∀ e ∈ s.events, e ∈ (RewriteLoop host n tbl k i s).events) ∧
      (Event.PanicAlert ∉ s.events → Event.PanicAlert ∉ (RewriteLoop host n tbl k i s).events) ∧
      (∀ j, i ≤ j → j < i + k → tbl.getD j 0 ≠ 0 →
        Event.fwriteCluster (j * CLUSTER_SIZE) (host.fwriteOk j) ∈
          (RewriteLoop host n tbl k i s).events) := by
  intro k
  induction k with
  | zero =>
    intro i s _ _
    exact ⟨fun e he => he, fun h => h, fun j h1 h2 => by omega⟩
  | succ k ih =>
    intro i s hs h64
    have hb := RewriteBody_success host tbl i s hs
    have hu : u64 (i * CLUSTER_SIZE) = i * CLUSTER_SIZE := by
      unfold u64; apply Nat.mod_eq_of_lt; rw [CLUSTER_SIZE_eq] at *; omega
    rw [RewriteLoop_succ]
    simp only [hb, Bool.not_true, Bool.and_false, Bool.false_eq_true, if_false]
    rw [if_neg hn]
    obtain ⟨h1, h2, h3⟩ := ih (i + 1) (RewriteProgress n i (RewriteBody host tbl i s))
      (by rw [RewriteProgress_success]; exact hb) (by rw [CLUSTER_SIZE_eq] at *; omega)
    have hev : ∀ e ∈ (RewriteBody host tbl i s).events,
        e ∈ (RewriteProgress n i (RewriteBody host tbl i s)).events := by
      intro e he
      rw [RewriteProgress_events]
      exact List.mem_append_left _ he
    refine ⟨fun e he => h1 e (hev e ?_), fun hp => h2 ?_, fun j hj1 hj2 hfree => ?_⟩
    · rw [RewriteBody_events]
      exact List.mem_append_left _ he
    · rw [RewriteProgress_events, RewriteBody_events]
      intro hmem
      rcases List.mem_append.mp hmem with hmem | hmem
      · rcases List.mem_append.mp hmem with hmem | hmem
        · exact hp hmem
        · split at hmem
          · simp at hmem
          · cases hmem
      · split at hmem
        · simp at hmem
        · cases hmem
    · by_cases hji : j = i
      · subst hji
        apply h1
        apply hev
        rw [RewriteBody_events, if_pos hfree, hu]
        exact List.mem_append_right _ (List.mem_singleton.mpr rfl)
      · exact h3 j (by omega) (by omega) hfree

/-- With a zero progress step the first pass through the loop divides by zero. -/
theorem RewriteLoop_divZero_first (host : Host) (n : Nat) (tbl : List Nat) (hn : n / 1000 = 0)
    (k i : Nat) (s : Rewrite) (hk : k ≠ 0) (h : s.success = true) :
    RewriteLoop host n tbl k i s = { RewriteBody host tbl i s with divZero := true } := by
  cases k with
  | zero => exact absurd rfl hk
  | succ k => exact RewriteLoop_divZero_true host n tbl hn k i s h

/-- `ScrubRun` once the analysis has returned and the file is open. -/
theorem ScrubRun_parsed (host : Host) (PG : List SPartitionGroup) (file : List Nat)
    (ev : List Event) (r : List SPartitionGroup × List Nat)
    (hparse : ParseDisc host host.GetSize PG
      (List.replicate (host.GetSize / CLUSTER_SIZE) 1) = some r)
    (hopen : host.fopenRewrite = true) (L : Rewrite)
    (hL : L = RewriteLoop host (host.GetSize / CLUSTER_SIZE) r.2 (host.GetSize / CLUSTER_SIZE) 0
      ⟨true, file, ev ++ [Event.callbackParsing], false⟩) :
    ScrubRun host PG file ev =
      if L.divZero = true then ⟨Exit.crashed, L.file, L.events⟩
      else ⟨Exit.returned true, (MarkAsScrubbed host L.file).2.1,
        L.events ++ (MarkAsScrubbed host L.file).2.2⟩ := by
  have hs : L.success = true := by
    rw [hL]
    exact RewriteLoop_success host _ _ _ _ _ rfl
  unfold ScrubRun
  simp only [hparse, hopen, ← hL, hs]
  simp

/-- The first ten cells are used after `ParseDisc` on an image of at least 0x50000 bytes. -/
theorem ParseDisc_header (host : Host) (fs : Nat) (PG : List SPartitionGroup) (t : List Nat)
    (hfs : fs + CLUSTER_SIZE ≤ 2 ^ 64) (hlen : t.length = fs / CLUSTER_SIZE)
    (r : List SPartitionGroup × List Nat) (h : ParseDisc host fs PG t = some r) (c : Nat)
    (hc : c < 10) (hc' : c * CLUSTER_SIZE < fs) (hc'' : c < fs / CLUSTER_SIZE) :
    r.2[c]? = some 0 := by
  obtain ⟨t₁, r', e₁, er, h₁, hr⟩ := ParseDisc_keeps host fs hfs PG t
  rw [h] at er
  cases er
  apply hr.2
  have := MarkAsUsed_marks fs t t₁ 0 0x50000 e₁ (by norm_num) c
    (by rw [CLUSTER_SIZE_eq]; omega) (by omega) (by rw [hlen]; rw [CLUSTER_SIZE_eq] at *; omega)
  have hidx : (0 + c * CLUSTER_SIZE) / CLUSTER_SIZE = c := by rw [CLUSTER_SIZE_eq]; omega
  rw [hidx] at this
  exact this

/-- A run on an image of 1 to 999 clusters stops at the first progress test. -/
theorem ScrubRun_small (host : Host) (PG : List SPartitionGroup) (file : List Nat)
    (ev : List Event) (h1 : CLUSTER_SIZE ≤ host.GetSize)
    (h2 : host.GetSize < 1000 * CLUSTER_SIZE) (hopen : host.fopenRewrite = true) :
    ScrubRun host PG file ev = ⟨Exit.crashed, file, ev ++ [Event.callbackParsing]⟩ := by
  have hfs : host.GetSize + CLUSTER_SIZE ≤ 2 ^ 64 := by rw [CLUSTER_SIZE_eq] at *; omega
  obtain ⟨t₁, r, e₁, er, h₁, hr⟩ := ParseDisc_keeps host host.GetSize hfs PG
    (List.replicate (host.GetSize / CLUSTER_SIZE) 1)
  have hn1 : host.GetSize / CLUSTER_SIZE ≠ 0 := by rw [CLUSTER_SIZE_eq] at *; omega
  have hn2 : host.GetSize / CLUSTER_SIZE / 1000 = 0 := by rw [CLUSTER_SIZE_eq] at *; omega
  have h0 : r.2[0]? = some 0 :=
    ParseDisc_header host host.GetSize PG _ hfs (by simp) r er 0 (by decide)
      (by rw [CLUSTER_SIZE_eq] at *; omega) (by omega)
  have hg : r.2.getD 0 0 = 0 := by rw [List.getD_eq_getElem?_getD, h0]; rfl
  rw [ScrubRun_parsed host PG file ev r er hopen _ rfl,
    RewriteLoop_divZero_first host _ r.2 hn2 _ 0 _ hn1 rfl, RewriteBody_used host r.2 0 _ hg]
  rfl

theorem IsScrubbed_replicate_zero (n : Nat) (h : 0x84 ≤ n) :
    IsScrubbed (some (List.replicate n 0)) = 0 := by
  apply IsScrubbed_flag _ 0 (List.replicate (n - 0x84) 0) (by decide)
  rw [List.drop_replicate]
  have : n - 0x80 = (n - 0x84) + 4 := by omega
  rw [this]
  rfl

theorem MarkAsScrubbed_file (host : Host) (file : List Nat) (hflag : host.fopenFlag = true)
    (hfw : host.fwriteFlagOk = true) :
    MarkAsScrubbed host file = (true, fwriteAt file 0x80 [SCRUBBER_VERSION], [Event.fwriteFlag true]) := by
  unfold MarkAsScrubbed
  simp [hflag, hfw]

theorem RewriteBody_file_free (host : Host) (tbl : List Nat) (i : Nat) (s : Rewrite)
    (hfree : tbl.getD i 0 ≠ 0) (hok : host.fwriteOk i = true) :
    (RewriteBody host tbl i s).file = fwriteAt s.file (u64 (i * CLUSTER_SIZE)) m_Sector1 := by
  unfold RewriteBody
  rw [if_pos hfree]
  simp only [hok, if_true]

/-- The whole of `Scrub` on an image of at least 1000 clusters whose tag reads 0,
once the analysis has returned `r`. -/
theorem Scrub_large (host : Host) (PG : List SPartitionGroup) (file : List Nat)
    (r : List SPartitionGroup × List Nat)
    (htag : IsScrubbed (if host.fopenProbe then some file else none) = 0)
    (hparse : ParseDisc host host.GetSize PG
      (List.replicate (host.GetSize / CLUSTER_SIZE) 1) = some r)
    (hn : 1000 * CLUSTER_SIZE ≤ host.GetSize) (hopen : host.fopenRewrite = true)
    (L : Rewrite)
    (hL : L = RewriteLoop host (host.GetSize / CLUSTER_SIZE) r.2 (host.GetSize / CLUSTER_SIZE) 0
      ⟨true, file, [] ++ [Event.callbackParsing], false⟩) :
    Scrub host PG file = ⟨Exit.returned true, (MarkAsScrubbed host L.file).2.1,
        L.events ++ (MarkAsScrubbed host L.file).2.2⟩ := by
  have hn' : host.GetSize / CLUSTER_SIZE / 1000 ≠ 0 := by rw [CLUSTER_SIZE_eq] at *; omega
  have hdz : L.divZero = false := by
    rw [hL]
    exact RewriteLoop_divZero_false host _ r.2 hn' _ _ _ rfl
  rw [Scrub_proceeds host PG file htag, ScrubRun_parsed host PG file [] r hparse hopen L hL, hdz]
  simp

/-! ## C1: conservative marking by `MarkAsUsedE` -/

/-- C1 (code defect, the one of C8): on an image of 0xfbff bytes (one whole cluster
and a trailing part of a cluster, so a bitmap of one cell) the compensated range of
`MarkAsUsedE(0, 0x7bff, 2)` is `[0, 0xfbff)`, inside the image, and the logical
byte 0x7c00 of the extent belongs to physical cluster 1. The marker does execute
the store for that cluster, but `m_FreeTable[1]` lies past the end of the one-cell
allocation: the stores go to the indices 0 and 1, and the bitmap has no cell 1 that
could be marked used. -/
theorem MarkAsUsedE_trailing_cluster :
    MarkAsUsedEM 0xfbff ⟨List.replicate (0xfbff / CLUSTER_SIZE) 1, []⟩ 0 0x7bff 2 =
      some ⟨[0], [1, 0]⟩ ∧
    (List.replicate (0xfbff / CLUSTER_SIZE) 1).length = 1 ∧
    0 / 0x8000 + 0x7c00 / 0x7c00 = 1 ∧
    (0x7bff ≤ 0x7c00 ∧ 0x7c00 < 0x7bff + 2) ∧
    0 + 0x7bff / 0x7c00 * 0x8000 + ((2 / 0x7c00 + 1) * 0x8000 + 0x7bff % 0x7c00) ≤ 0xfbff := by
  decide

/-! ## C2: the rewrite loop on a small image -/

/-- C2 (code defect, the one of C13): on the image of 0x58000 zero bytes (11
clusters) without partitions the analysis leaves the bitmap with the cells 0 to 9
used and cell 10 free. With every write succeeding, the rewrite loop run with this
bitmap passes cluster 0 (used) and then evaluates `0 % (11 / 1000)`, a division by
zero that ends the run: no cluster has been written, and cluster 10, marked free,
still holds zero bytes (the byte at 0x50000 is 0, not 0xFF). -/
theorem RewriteLoop_small_image :
    (ParseDisc (blankHost 0x58000) 0x58000 PartitionGroup0 (List.replicate 11 1)).map Prod.snd =
      some (List.replicate 10 0 ++ [1]) ∧
    RewriteLoop (blankHost 0x58000) 11 (List.replicate 10 0 ++ [1]) 11 0
        ⟨true, List.replicate 0x58000 0, [], false⟩ =
      ⟨true, List.replicate 0x58000 0, [], true⟩ ∧
    (List.replicate 10 0 ++ [1]).getD 10 0 ≠ 0 ∧
    (List.replicate 0x58000 0)[0x50000]? = some 0 := by
  refine ⟨by decide, ?_, by decide, ?_⟩
  · rw [RewriteLoop_divZero_first (blankHost 0x58000) 11 _ (by decide) 11 0 _ (by decide) rfl,
      RewriteBody_used _ _ 0 _ (by decide)]
  · rw [List.getElem?_replicate, if_pos (by decide)]

/-! ## C3: an unaligned range -/

/-- C3 (code defect): `MarkAsUsed(0x7ffc, 8)` on an image of two clusters marks
cluster 0 only. The range [0x7ffc, 0x8004) holds the bytes 0x8000 to 0x8003 of
cluster 1, but the loop steps from the unaligned offset 0x7ffc to 0xfffc, past the
end of the range, so cluster 1 stays free. -/
theorem MarkAsUsed_unaligned_skips_cluster :
    MarkAsUsed 0x10000 [1, 1] 0x7ffc 8 = some [0, 1] ∧
    (0x7ffc ≤ 1 * CLUSTER_SIZE ∧ 1 * CLUSTER_SIZE < 0x7ffc + 8 ∧ 1 * CLUSTER_SIZE < 0x10000) := by
  decide

/-! ## C4: a failed write -/

/-- C4 (code defect): a failed write does not abort the pass. On an image of at least
1000 clusters whose tag reads 0, whatever the outcome `host.fwriteOk j` of the
writes, once the analysis has returned `r` and the file is open, `Scrub` returns
true, raises no `PanicAlert`, attempts the write of every cluster that `r` leaves
free (those after a failed one included), and, when `MarkAsScrubbed` can write,
stamps the tag at 0x80. The source accumulates `success |= fwrite(..., CLUSTER_SIZE, 1,
pFile) == CLUSTER_SIZE`: `success` starts true and `|=` never clears it. -/
theorem Scrub_write_failure_ignored (host : Host) (PartitionGroup : List SPartitionGroup)
    (file : List Nat) (r : List SPartitionGroup × List Nat)
    (htag : IsScrubbed (if host.fopenProbe then some file else none) = 0)
    (hparse : ParseDisc host host.GetSize PartitionGroup
      (List.replicate (host.GetSize / CLUSTER_SIZE) 1) = some r)
    (hn : 1000 * CLUSTER_SIZE ≤ host.GetSize) (hfs : host.GetSize + CLUSTER_SIZE ≤ 2 ^ 64)
    (hopen : host.fopenRewrite = true) (hflag : host.fopenFlag = true)
    (hfw : host.fwriteFlagOk = true) :
    (Scrub host PartitionGroup file).exit = Exit.returned true ∧
    Event.PanicAlert ∉ (Scrub host PartitionGroup file).events ∧
    Event.fwriteFlag true ∈ (Scrub host PartitionGroup file).events ∧
    (Scrub host PartitionGroup file).file[0x80]? = some SCRUBBER_VERSION ∧
    ∀ j, j < host.GetSize / CLUSTER_SIZE → r.2.getD j 0 ≠ 0 →
      Event.fwriteCluster (j * CLUSTER_SIZE) (host.fwriteOk j) ∈
        (Scrub host PartitionGroup file).events := by
  have hn' : host.GetSize / CLUSTER_SIZE / 1000 ≠ 0 := by rw [CLUSTER_SIZE_eq] at *; omega
  have h64 : (0 + host.GetSize / CLUSTER_SIZE) * CLUSTER_SIZE ≤ 2 ^ 64 := by
    have := Nat.div_mul_le_self host.GetSize CLUSTER_SIZE
    rw [CLUSTER_SIZE_eq] at *
    omega
  rw [Scrub_large host PartitionGroup file r htag hparse hn hopen _ rfl,
    MarkAsScrubbed_file host _ hflag hfw]
  obtain ⟨-, h2, h3⟩ := RewriteLoop_events host (host.GetSize / CLUSTER_SIZE) r.2 hn'
    (host.GetSize / CLUSTER_SIZE) 0 ⟨true, file, [] ++ [Event.callbackParsing], false⟩ rfl h64
  refine ⟨rfl, ?_, ?_, ?_, fun j hj hfree => ?_⟩
  · intro hmem
    rcases List.mem_append.mp hmem with hmem | hmem
    · exact h2 (by simp) hmem
    · simp at hmem
  · exact List.mem_append_right _ (List.mem_singleton.mpr rfl)
  · show (fwriteAt _ 0x80 [SCRUBBER_VERSION])[0x80]? = some SCRUBBER_VERSION
    rw [fwriteAt_get]
    simp
  · exact List.mem_append_left _ (h3 j (by omega) (by omega) hfree)

set_option maxRecDepth 100000 in
/-- Failing input of C4, an instance of `Scrub_write_failure_ignored`: on the disc of
1000 clusters without partitions on which the write of cluster 10 fails, `Scrub`
returns true, raises no alert, goes on to write cluster 11, and stamps the tag. -/
theorem Scrub_write_failure_ignored_witness :
    (Scrub failingWriteHost PartitionGroup0 (List.replicate 0x1F40000 0)).exit =
      Exit.returned true ∧
    Event.PanicAlert ∉ (Scrub failingWriteHost PartitionGroup0 (List.replicate 0x1F40000 0)).events ∧
    Event.fwriteFlag true ∈
      (Scrub failingWriteHost PartitionGroup0 (List.replicate 0x1F40000 0)).events ∧
    (Scrub failingWriteHost PartitionGroup0 (List.replicate 0x1F40000 0)).file[0x80]? =
      some SCRUBBER_VERSION ∧
    Event.fwriteCluster (10 * CLUSTER_SIZE) false ∈
      (Scrub failingWriteHost PartitionGroup0 (List.replicate 0x1F40000 0)).events ∧
    Event.fwriteCluster (11 * CLUSTER_SIZE) true ∈
      (Scrub failingWriteHost PartitionGroup0 (List.replicate 0x1F40000 0)).events := by
  have h := Scrub_write_failure_ignored failingWriteHost PartitionGroup0
    (List.replicate 0x1F40000 0)
    (List.replicate 4 { numPartitions := 0, PartitionsOffset := 0, PartitionsVec := [] },
      List.replicate 10 0 ++ List.replicate 990 1)
    (IsScrubbed_replicate_zero 0x1F40000 (by decide)) (by decide) (by decide) (by decide)
    rfl rfl rfl
  exact ⟨h.1, h.2.1, h.2.2.1, h.2.2.2.1, h.2.2.2.2 10 (by decide) (by decide),
    h.2.2.2.2 11 (by decide) (by decide)⟩

/-! ## C5: the idempotency probe -/

/-- C5 (amended): `IsScrubbed` returns 0 for a file that cannot be opened. For a file
whose bytes at 0x81..0x83 are zero it returns the byte at 0x80, so 0 exactly when
that byte is 0. For a file without a byte at 0x80 it returns `SCRUBBER_VERSION`,
the initial value of `ScrubbedFlag`, and `Scrub` takes the already-scrubbed branch
without touching the file. Whenever the probe returns 0, `Scrub` proceeds to the
analysis and the rewrite. -/
theorem IsScrubbed_probe (file : List Nat) :
    IsScrubbed none = 0 ∧
    (∀ b rest, b < 256 → file.drop 0x80 = b :: 0 :: 0 :: 0 :: rest →
      IsScrubbed (some file) = b) ∧
    (file.length ≤ 0x80 → IsScrubbed (some file) = SCRUBBER_VERSION ∧
      ∀ (host : Host) (PG : List SPartitionGroup), host.fopenProbe = true →
        Scrub host PG file = ⟨Exit.returned true, file, [Event.callbackAlreadyScrubbed]⟩) ∧
    (∀ (host : Host) (PG : List SPartitionGroup),
      IsScrubbed (if host.fopenProbe then some file else none) = 0 →
        Scrub host PG file = ScrubRun host PG file []) := by
  refine ⟨rfl, fun b rest hb h => IsScrubbed_flag file b rest hb h, fun h => ?_,
    fun host PG h => Scrub_proceeds host PG file h⟩
  have hs := IsScrubbed_short file h
  refine ⟨hs, fun host PG hp => Scrub_already host PG file hp ?_ ?_⟩
  · rw [hs]; decide
  · rw [hs]

/-- C5 as stated fails: the empty file has no byte at 0x80, and `IsScrubbed`
returns `SCRUBBER_VERSION` for it, not 0. -/
theorem IsScrubbed_absent_counterexample :
    IsScrubbed (some []) = SCRUBBER_VERSION ∧
    ¬ (∀ file : List Nat,
        IsScrubbed (some file) = 0 ↔ (file[0x80]? = some 0 ∨ file[0x80]? = none)) := by
  refine ⟨by decide, fun h => ?_⟩
  have := (h []).2 (Or.inr rfl)
  revert this
  decide

/-! ## C6: the idempotency round trip -/

/-- C6: for a file of at least 0x84 bytes on which the `fopen` and the `fwrite` of
`MarkAsScrubbed` succeed, `MarkAsScrubbed` returns true (whatever its uninitialised
`success` held), the byte at 0x80 of the file becomes `SCRUBBER_VERSION`, the length
and every other byte are unchanged, `IsScrubbed` of the result is nonzero, and a
later `Scrub` of the result that can open it returns true through the
already-scrubbed branch, leaving the file as it is. -/
theorem MarkAsScrubbed_roundtrip (host : Host) (file : List Nat) (hlen : 0x84 ≤ file.length)
    (hopen : host.fopenFlag = true) (hw : host.fwriteFlagOk = true) :
    (MarkAsScrubbed host file).1 = true ∧
    (MarkAsScrubbed host file).2.1.length = file.length ∧
    (MarkAsScrubbed host file).2.1[0x80]? = some SCRUBBER_VERSION ∧
    (∀ p : Nat, p ≠ 0x80 → (MarkAsScrubbed host file).2.1[p]? = file[p]?) ∧
    IsScrubbed (some (MarkAsScrubbed host file).2.1) ≠ 0 ∧
    ∀ (host2 : Host) (PG : List SPartitionGroup), host2.fopenProbe = true →
      Scrub host2 PG (MarkAsScrubbed host file).2.1 =
        ⟨Exit.returned true, (MarkAsScrubbed host file).2.1, [Event.callbackAlreadyScrubbed]⟩ := by
  have hf : (MarkAsScrubbed host file).2.1 = fwriteAt file 0x80 [SCRUBBER_VERSION] := by
    unfold MarkAsScrubbed
    simp [hopen, hw]
  have h1 : (MarkAsScrubbed host file).1 = true := by
    unfold MarkAsScrubbed
    simp [hopen, hw]
  have hd : (fwriteAt file 0x80 [SCRUBBER_VERSION]).drop 0x80 =
      SCRUBBER_VERSION :: file.drop 0x81 := by
    unfold fwriteAt
    have hz : 0x80 - file.length = 0 := by omega
    rw [hz, List.replicate_zero, List.append_nil, List.append_assoc,
      List.drop_append_of_le_length (by simp; omega)]
    rw [List.drop_of_length_le (by simp)]
    rfl
  have hpos : IsScrubbed (some (fwriteAt file 0x80 [SCRUBBER_VERSION])) ≠ 0 :=
    IsScrubbed_pos _ _ _ (by decide) hd
  rw [hf]
  refine ⟨h1, ?_, ?_, ?_, hpos, fun host2 PG hp => Scrub_already host2 PG _ hp hpos ?_⟩
  · rw [fwriteAt_length]; simp; omega
  · rw [fwriteAt_get]; simp
  · intro p hp
    rw [fwriteAt_get]
    simp only [List.length_singleton]
    split
    · rw [if_pos (by omega)]
    · rw [if_neg (by omega)]
  · exact Nat.pos_of_ne_zero hpos

/-- Witness of `MarkAsScrubbed_roundtrip`: a file of 0x84 zero bytes. -/
theorem MarkAsScrubbed_roundtrip_witness :
    (MarkAsScrubbed (blankHost 0x84) (List.replicate 0x84 0)).1 = true ∧
    (MarkAsScrubbed (blankHost 0x84) (List.replicate 0x84 0)).2.1.length =
      (List.replicate 0x84 0).length ∧
    (MarkAsScrubbed (blankHost 0x84) (List.replicate 0x84 0)).2.1[0x80]? =
      some SCRUBBER_VERSION ∧
    (∀ p : Nat, p ≠ 0x80 →
      (MarkAsScrubbed (blankHost 0x84) (List.replicate 0x84 0)).2.1[p]? =
        (List.replicate 0x84 0)[p]?) ∧
    IsScrubbed (some (MarkAsScrubbed (blankHost 0x84) (List.replicate 0x84 0)).2.1) ≠ 0 ∧
    ∀ (host2 : Host) (PG : List SPartitionGroup), host2.fopenProbe = true →
      Scrub host2 PG (MarkAsScrubbed (blankHost 0x84) (List.replicate 0x84 0)).2.1 =
        ⟨Exit.returned true, (MarkAsScrubbed (blankHost 0x84) (List.replicate 0x84 0)).2.1,
          [Event.callbackAlreadyScrubbed]⟩ :=
  MarkAsScrubbed_roundtrip (blankHost 0x84) (List.replicate 0x84 0) (by simp) rfl rfl

/-! ## C7: the extent of the executable -/

/-- C7 (amended): on a volume whose `Read` of 4 bytes always delivers 4 bytes,
`GetDOLSize` returns the maximum over the 7 code and 11 data segments of
`(offset + size) mod 2^32` (0 when there is none above 0); when no `offset + size`
reaches 2^32 this is the maximum of `offset + size`, whether a code or a data
segment attains it. -/
theorem GetDOLSize_extent (Read : Nat → Nat → List Nat) (_DOLOffset : Nat)
    (hR : ∀ off, 4 ≤ (Read off 4).length) :
    GetDOLSize Read _DOLOffset = maxExtent32 (dolSegments Read _DOLOffset) ∧
    ((∀ s ∈ dolSegments Read _DOLOffset, s.1 + s.2 < 2 ^ 32) →
      GetDOLSize Read _DOLOffset = maxExtent (dolSegments Read _DOLOffset)) := by
  have h1 : GetDOLSize Read _DOLOffset = maxExtent32 (dolSegments Read _DOLOffset) := by
    unfold GetDOLSize maxExtent32 dolSegments
    simp only
    rw [GetDOLSize_fold Read _DOLOffset 0x1c 0xac hR, GetDOLSize_fold Read _DOLOffset 0x00 0x90 hR,
      List.foldl_append]
  refine ⟨h1, fun h => ?_⟩
  rw [h1]
  unfold maxExtent32 maxExtent
  exact maxExtent32_eq _ h 0

/-- Witness of `GetDOLSize_extent`: a header whose only segment is data segment 0,
at offset 0x100 with size 0x20; the extent is 0x120. -/
theorem GetDOLSize_extent_witness :
    (GetDOLSize dataRead 0 = maxExtent32 (dolSegments dataRead 0) ∧
      ((∀ s ∈ dolSegments dataRead 0, s.1 + s.2 < 2 ^ 32) →
        GetDOLSize dataRead 0 = maxExtent (dolSegments dataRead 0))) ∧
    GetDOLSize dataRead 0 = 0x120 :=
  ⟨GetDOLSize_extent dataRead 0 (fun off => by unfold dataRead; split_ifs <;> decide),
    by decide⟩

/-- C7 as stated fails: with code segment 0 at offset 0xFFFFFFFF and size 2 (all
other fields zero) the maximum of `offset + size` is 0x100000001, and `GetDOLSize`
returns 1, the sum in 32 bits. -/
theorem GetDOLSize_wrap_counterexample :
    GetDOLSize wrapRead 0 = 1 ∧ maxExtent (dolSegments wrapRead 0) = 0x100000001 := by
  decide

/-! ## C8: stores past the end of the bitmap -/

/-- C8 (code defect): on an image of 0x8001 bytes (one whole cluster, so a bitmap
of one cell) the call `MarkAsUsed(0, 0x50000)` with which `ParseDisc` starts stores
to the indices 0 and 1. The loop is clipped against the image size, not against
the number of cells, so `m_FreeTable[1]` is written past the end of the allocation. -/
theorem MarkAsUsed_store_out_of_bounds :
    MarkAsUsedStores 0x8001 (List.replicate (0x8001 / CLUSTER_SIZE) 1) 0 0x50000 =
      some [1, 0] ∧
    (List.replicate (0x8001 / CLUSTER_SIZE) 1).length = 1 := by
  decide

/-! ## C9: the end-to-end scenario -/

/-- C10, on a little-endian host: when the read at `_Offset` delivers the four
bytes `b0 b1 b2 b3` of a big-endian field of value `V = be32 b0 b1 b2 b3`, the
64-bit overloads of `ReadFromDisc` and `ReadFromVolume` yield `4 * V` (up to
`2^34 - 4`, so beyond 32 bits, whatever the variable held before) and the 32-bit
overloads yield `V`. In particular the offset of a partition read by `ParseDisc`
and the offset of the partition table of a group are 4 times the stored value. -/
theorem Read_scaling (Rd : Nat → Nat → List Nat) (_Offset _Length old b0 b1 b2 b3 : Nat)
    (h0 : b0 < 256) (h1 : b1 < 256) (h2 : b2 < 256) (h3 : b3 < 256)
    (hR : Rd _Offset _Length = [b0, b1, b2, b3]) :
    ReadFromDisc_u64 Rd _Offset _Length old = 4 * be32 b0 b1 b2 b3 ∧
    ReadFromVolume_u64 Rd _Offset _Length old = 4 * be32 b0 b1 b2 b3 ∧
    ReadFromDisc_u32 Rd _Offset _Length old = be32 b0 b1 b2 b3 ∧
    ReadFromVolume_u32 Rd _Offset _Length old = be32 b0 b1 b2 b3 ∧
    (∀ x PartitionsOffset i, _Offset = u64 (PartitionsOffset + u32 (i * 8) + 0) → _Length = 4 →
      (ReadPartition Rd x PartitionsOffset i).Offset = 4 * be32 b0 b1 b2 b3) ∧
    (∀ (host : Host) (m_FileSize x : Nat) (g : SPartitionGroup) (t : List Nat)
      (r : SPartitionGroup × List Nat), host.RAWRead = Rd → _Offset = 0x40000 + x * 8 + 4 →
      _Length = 4 → ParseGroup host m_FileSize x g t = some r →
      r.1.PartitionsOffset = 4 * be32 b0 b1 b2 b3) := by
  have hlt : be32 b0 b1 b2 b3 < 2 ^ 32 := by unfold be32; omega
  have h64 : u64 (be32 b0 b1 b2 b3 <<< 2) = 4 * be32 b0 b1 b2 b3 := by
    unfold u64
    rw [Nat.shiftLeft_eq]
    omega
  have hd : ∀ old', ReadFromDisc_u64 Rd _Offset _Length old' = 4 * be32 b0 b1 b2 b3 := by
    intro old'
    unfold ReadFromDisc_u64
    simp only [hR]
    rw [pokeLE_eight old' b0 b1 b2 b3 h0 h1 h2 h3, swap32_bytes b0 b1 b2 b3 h0 h1 h2 h3, h64]
  refine ⟨hd old, ?_, ?_, ?_, ?_, ?_⟩
  · unfold ReadFromVolume_u64
    simp only [hR]
    rw [pokeLE_eight old b0 b1 b2 b3 h0 h1 h2 h3, swap32_bytes b0 b1 b2 b3 h0 h1 h2 h3, h64]
  · unfold ReadFromDisc_u32
    simp only [hR]
    rw [pokeLE_four old b0 b1 b2 b3 h0 h1 h2 h3, swap32_bytes b0 b1 b2 b3 h0 h1 h2 h3]
  · unfold ReadFromVolume_u32
    simp only [hR]
    rw [pokeLE_four old b0 b1 b2 b3 h0 h1 h2 h3, swap32_bytes b0 b1 b2 b3 h0 h1 h2 h3]
  · intro x PartitionsOffset i hO hL
    subst hO hL
    exact hd 0
  · intro host m_FileSize x g t r hhost hO hL hr
    subst hhost hO hL
    unfold ParseGroup at hr
    simp only at hr
    rw [Option.map_eq_some'] at hr
    obtain ⟨m, -, rfl⟩ := hr
    exact hd g.PartitionsOffset

/-- Witness of `Read_scaling`: the field `00 01 40 00` at 0x40020, the stored
offset 0x14000 of a partition at 0x50000. -/
theorem Read_scaling_witness :
    ReadFromDisc_u64 onePartitionRAWRead 0x40020 4 0 = 4 * be32 0x00 0x01 0x40 0x00 ∧
    ReadFromVolume_u64 onePartitionRAWRead 0x40020 4 0 = 4 * be32 0x00 0x01 0x40 0x00 ∧
    ReadFromDisc_u32 onePartitionRAWRead 0x40020 4 0 = be32 0x00 0x01 0x40 0x00 ∧
    ReadFromVolume_u32 onePartitionRAWRead 0x40020 4 0 = be32 0x00 0x01 0x40 0x00 ∧
    (∀ x PartitionsOffset i, 0x40020 = u64 (PartitionsOffset + u32 (i * 8) + 0) → 4 = 4 →
      (ReadPartition onePartitionRAWRead x PartitionsOffset i).Offset =
        4 * be32 0x00 0x01 0x40 0x00) ∧
    (∀ (host : Host) (m_FileSize x : Nat) (g : SPartitionGroup) (t : List Nat)
      (r : SPartitionGroup × List Nat), host.RAWRead = onePartitionRAWRead →
      0x40020 = 0x40000 + x * 8 + 4 →
      4 = 4 → ParseGroup host m_FileSize x g t = some r →
      r.1.PartitionsOffset = 4 * be32 0x00 0x01 0x40 0x00) :=
  Read_scaling onePartitionRAWRead 0x40020 4 0 0x00 0x01 0x40 0x00 (by decide) (by decide)
    (by decide) (by decide) (by decide)

/-! ## C11: the formula of the offset compensator -/

/-- C11: in the 64-bit arithmetic of the source, `MarkAsUsedE(B, o, n)` is
`MarkAsUsed(B + (o / 0x7c00) * 0x8000, (n / 0x7c00 + 1) * 0x8000 + o % 0x7c00)`,
both arguments taken modulo 2^64: the same bitmap, and the same failure to return.
When the sum of the two does not reach 2^64 the arguments are these numbers themselves. -/
theorem MarkAsUsedE_formula (m_FileSize : Nat) (m_FreeTable : List Nat) (B o n : Nat) :
    MarkAsUsedE m_FileSize m_FreeTable B o n =
        MarkAsUsed m_FileSize m_FreeTable (u64 (B + o / 0x7c00 * 0x8000))
          (u64 ((n / 0x7c00 + 1) * 0x8000 + o % 0x7c00)) ∧
    (B + o / 0x7c00 * 0x8000 + ((n / 0x7c00 + 1) * 0x8000 + o % 0x7c00) < 2 ^ 64 →
      MarkAsUsedE m_FileSize m_FreeTable B o n =
        MarkAsUsed m_FileSize m_FreeTable (B + o / 0x7c00 * 0x8000)
          ((n / 0x7c00 + 1) * 0x8000 + o % 0x7c00)) := by
  refine ⟨?_, MarkAsUsedE_exact _ _ _ _ _⟩
  rw [MarkAsUsedE_eq]
  have h1 : u64 (u64 (o / 0x7c00 * CLUSTER_SIZE) + B) = u64 (B + o / 0x7c00 * 0x8000) := by
    unfold u64
    rw [CLUSTER_SIZE_eq, Nat.add_comm B, Nat.mod_add_mod]
  have h2 : u64 (u64 ((n / 0x7c00 + 1) * CLUSTER_SIZE) + o % 0x7c00) =
      u64 ((n / 0x7c00 + 1) * 0x8000 + o % 0x7c00) := by
    unfold u64
    rw [CLUSTER_SIZE_eq, Nat.mod_add_mod]
  rw [h1, h2]

/-! ## C12: idempotence of the marker -/

/-- C12: if `MarkAsUsed(_Offset, _Size)` turns the bitmap into `t`, the same call on `t`
returns `t`. On an image of at most `2^64 - 0x8000` bytes the call returns, and if
every cell from the cluster of `_Offset` up to the end of the range (clipped to the
image) is already used, it returns the bitmap unchanged. -/
theorem MarkAsUsed_idempotent (m_FileSize : Nat) (m_FreeTable : List Nat) (_Offset _Size : Nat) :
    (∀ t, MarkAsUsed m_FileSize m_FreeTable _Offset _Size = some t →
      MarkAsUsed m_FileSize t _Offset _Size = some t) ∧
    (m_FileSize + CLUSTER_SIZE ≤ 2 ^ 64 →
      (∃ t, MarkAsUsed m_FileSize m_FreeTable _Offset _Size = some t) ∧
      ((∀ c : Nat, c < m_FreeTable.length → _Offset / CLUSTER_SIZE ≤ c →
          c * CLUSTER_SIZE < u64 (_Offset + _Size) → c * CLUSTER_SIZE < m_FileSize →
          m_FreeTable[c]? = some 0) →
        MarkAsUsed m_FileSize m_FreeTable _Offset _Size = some m_FreeTable)) := by
  refine ⟨fun t h => MarkAsUsed_twice _ _ _ _ _ h, fun hfs => ?_⟩
  obtain ⟨t, ht⟩ := MarkAsUsed_total m_FileSize m_FreeTable _Offset _Size (Or.inl hfs)
  refine ⟨⟨t, ht⟩, fun hu => ?_⟩
  obtain ⟨m', hm', rfl⟩ := MarkAsUsed_eq_some _ _ _ _ _ ht
  rw [ht, MarkAsUsedLoop_unchanged _ _ (Or.inl hfs) _ _ _ _ hm' hu]

/-! ## C13: the progress step -/

/-- C13 (code defect): for every image of 1 to 999 clusters whose tag reads 0 and that
can be opened for rewriting, the progress step `numClusters / 1000` is 0, and `Scrub`
ends in the division `0 % 0` of the first pass through the rewrite loop: no cluster
has been written, the file is as it was, and the only event is the parsing callback. -/
theorem Scrub_small_image_crashes (host : Host) (PartitionGroup : List SPartitionGroup)
    (file : List Nat)
    (htag : IsScrubbed (if host.fopenProbe then some file else none) = 0)
    (h1 : CLUSTER_SIZE ≤ host.GetSize) (h2 : host.GetSize < 1000 * CLUSTER_SIZE)
    (hopen : host.fopenRewrite = true) :
    host.GetSize / CLUSTER_SIZE / 1000 = 0 ∧
    Scrub host PartitionGroup file = ⟨Exit.crashed, file, [Event.callbackParsing]⟩ := by
  refine ⟨by rw [CLUSTER_SIZE_eq] at *; omega, ?_⟩
  rw [Scrub_proceeds host PartitionGroup file htag,
    ScrubRun_small host PartitionGroup file [] h1 h2 hopen]
  rfl

/-- Failing input of C13, an instance of `Scrub_small_image_crashes`: the image of
0x100000 zero bytes (32 clusters) without partitions. -/
theorem Scrub_small_image_crashes_witness :
    (blankHost 0x100000).GetSize / CLUSTER_SIZE / 1000 = 0 ∧
    Scrub (blankHost 0x100000) PartitionGroup0 (List.replicate 0x100000 0) =
      ⟨Exit.crashed, List.replicate 0x100000 0, [Event.callbackParsing]⟩ :=
  Scrub_small_image_crashes (blankHost 0x100000) PartitionGroup0 (List.replicate 0x100000 0)
    (IsScrubbed_replicate_zero 0x100000 (by decide)) (by decide) (by decide) rfl

/-! ## C14: protection of the header -/

/-- C14: on an image of at least 0x50000 and at most `2^64 - 0x8000` bytes with a
bitmap of `m_FileSize / 0x8000` cells, whatever the volume holds, `ParseDisc`
returns, the cells 0 to 9 of its bitmap are used, and the rewrite loop run with
that bitmap leaves every byte of the file before 0x50000 as it is. -/
theorem ParseDisc_header_protected (host : Host) (m_FileSize : Nat)
    (PartitionGroup : List SPartitionGroup) (m_FreeTable : List Nat)
    (h50 : 0x50000 ≤ m_FileSize) (hfs : m_FileSize + CLUSTER_SIZE ≤ 2 ^ 64)
    (hlen : m_FreeTable.length = m_FileSize / CLUSTER_SIZE) :
    ∃ r, ParseDisc host m_FileSize PartitionGroup m_FreeTable = some r ∧
      (∀ c : Nat, c < 10 → r.2[c]? = some 0) ∧
      ∀ (s : Rewrite) (p : Nat), p < 0x50000 → p < s.file.length →
        (RewriteLoop host (m_FileSize / CLUSTER_SIZE) r.2 (m_FileSize / CLUSTER_SIZE) 0 s).file[p]?
          = s.file[p]? := by
  obtain ⟨t₁, r, e₁, er, h₁, hr⟩ := ParseDisc_keeps host m_FileSize hfs PartitionGroup m_FreeTable
  have hused : ∀ c : Nat, c < 10 → r.2[c]? = some 0 := by
    intro c hc
    apply hr.2
    have := MarkAsUsed_marks m_FileSize m_FreeTable t₁ 0 0x50000 e₁ (by norm_num) c
      (by rw [CLUSTER_SIZE_eq]; omega) (by rw [CLUSTER_SIZE_eq]; omega)
      (by rw [hlen]; rw [CLUSTER_SIZE_eq]; omega)
    have hidx : (0 + c * CLUSTER_SIZE) / CLUSTER_SIZE = c := by rw [CLUSTER_SIZE_eq]; omega
    rw [hidx] at this
    exact this
  refine ⟨r, er, hused, fun s p hp hps => ?_⟩
  apply RewriteLoop_frame host _ r.2 _ 0 s
    (by have := Nat.div_mul_le_self m_FileSize CLUSTER_SIZE; rw [CLUSTER_SIZE_eq] at *; omega)
    p hps
  intro j _ _ hfree
  by_cases hj : j < 10
  · exfalso
    apply hfree
    have hj' := hused j hj
    rw [List.getD_eq_getElem?_getD, hj']
    rfl
  · rw [CLUSTER_SIZE_eq]; omega

/-- Witness of `ParseDisc_header_protected`: the image of 0x50000 bytes (10
clusters) without partitions. -/
theorem ParseDisc_header_protected_witness :
    ∃ r, ParseDisc (blankHost 0x50000) 0x50000 PartitionGroup0 (List.replicate 10 1) = some r ∧
      (∀ c : Nat, c < 10 → r.2[c]? = some 0) ∧
      ∀ (s : Rewrite) (p : Nat), p < 0x50000 → p < s.file.length →
        (RewriteLoop (blankHost 0x50000) (0x50000 / CLUSTER_SIZE) r.2 (0x50000 / CLUSTER_SIZE) 0
          s).file[p]? = s.file[p]? :=
  ParseDisc_header_protected (blankHost 0x50000) 0x50000 PartitionGroup0 (List.replicate 10 1)
    (by decide) (by decide) (by decide)

/-! ## C15: the bound on over-marking -/

/-- C15: for a base `B` that is a multiple of 0x8000, a logical offset `o` and a length
`n ≥ 1` whose compensated range does not wrap around, `MarkAsUsedE(B, o, n)` returns
with the same number of cells; every index it stores to lies between
`B / 0x8000 + o / 0x7c00` and `B / 0x8000 + (o + n - 1) / 0x7c00 + 1`; every cell
outside these bounds is unchanged; and every cell is unchanged or 0. -/
theorem MarkAsUsedE_overmark_bound (m_FileSize : Nat) (m_FreeTable : List Nat) (B o n : Nat)
    (hB : B % 0x8000 = 0) (hn : 1 ≤ n)
    (hno : B + o / 0x7c00 * 0x8000 + ((n / 0x7c00 + 1) * 0x8000 + o % 0x7c00) + 0x8000 ≤ 2 ^ 64) :
    ∃ m', MarkAsUsedEM m_FileSize ⟨m_FreeTable, []⟩ B o n = some m' ∧
      MarkAsUsedE m_FileSize m_FreeTable B o n = some m'.m_FreeTable ∧
      m'.m_FreeTable.length = m_FreeTable.length ∧
      (∀ i ∈ m'.stores, B / 0x8000 + o / 0x7c00 ≤ i ∧
        i ≤ B / 0x8000 + (o + n - 1) / 0x7c00 + 1) ∧
      (∀ c : Nat, (c < B / 0x8000 + o / 0x7c00 ∨ B / 0x8000 + (o + n - 1) / 0x7c00 + 1 < c) →
        m'.m_FreeTable[c]? = m_FreeTable[c]?) ∧
      (∀ c : Nat, m'.m_FreeTable[c]? = m_FreeTable[c]? ∨ m'.m_FreeTable[c]? = some 0) := by
  have hex := MarkAsUsedE_exact m_FileSize m_FreeTable B o n (by omega)
  have he : u64 (B + o / 0x7c00 * 0x8000 + ((n / 0x7c00 + 1) * 0x8000 + o % 0x7c00)) =
      B + o / 0x7c00 * 0x8000 + ((n / 0x7c00 + 1) * 0x8000 + o % 0x7c00) := by
    unfold u64; apply Nat.mod_eq_of_lt; omega
  have hfs : m_FileSize + CLUSTER_SIZE ≤ 2 ^ 64 ∨
      u64 (B + o / 0x7c00 * 0x8000 + ((n / 0x7c00 + 1) * 0x8000 + o % 0x7c00)) + CLUSTER_SIZE
        ≤ 2 ^ 64 := by
    right; rw [he, CLUSTER_SIZE_eq]; omega
  obtain ⟨t, ht⟩ := MarkAsUsed_total m_FileSize m_FreeTable (B + o / 0x7c00 * 0x8000)
    ((n / 0x7c00 + 1) * 0x8000 + o % 0x7c00) hfs
  have hM : MarkAsUsedE m_FileSize m_FreeTable B o n = some t := by rw [hex, ht]
  have hM' := hM
  unfold MarkAsUsedE at hM'
  rw [Option.map_eq_some'] at hM'
  obtain ⟨m', hm', rfl⟩ := hM'
  have hm2 : MarkAsUsedM m_FileSize ⟨m_FreeTable, []⟩ (B + o / 0x7c00 * 0x8000)
      ((n / 0x7c00 + 1) * 0x8000 + o % 0x7c00) = some m' := by
    have h1 : u64 (o / 0x7c00 * CLUSTER_SIZE) = o / 0x7c00 * 0x8000 := by
      unfold u64; rw [CLUSTER_SIZE_eq]; apply Nat.mod_eq_of_lt; omega
    have h2 : u64 (o / 0x7c00 * 0x8000 + B) = B + o / 0x7c00 * 0x8000 := by
      unfold u64; rw [Nat.add_comm]; apply Nat.mod_eq_of_lt; omega
    have h3 : u64 ((n / 0x7c00 + 1) * CLUSTER_SIZE) = (n / 0x7c00 + 1) * 0x8000 := by
      unfold u64; rw [CLUSTER_SIZE_eq]; apply Nat.mod_eq_of_lt; omega
    have h4 : u64 ((n / 0x7c00 + 1) * 0x8000 + o % 0x7c00) =
        (n / 0x7c00 + 1) * 0x8000 + o % 0x7c00 := by
      unfold u64; apply Nat.mod_eq_of_lt; omega
    unfold MarkAsUsedEM at hm'
    simp only [h1, h2, h3, h4] at hm'
    exact hm'
  have hst : ∀ i ∈ m'.stores, B / 0x8000 + o / 0x7c00 ≤ i ∧
      i ≤ B / 0x8000 + (o + n - 1) / 0x7c00 + 1 := by
    intro i hi
    have := MarkAsUsedM_stores_range m_FileSize m_FreeTable _ _ m' hfs hm2 i hi
    rw [he, CLUSTER_SIZE_eq] at this
    omega
  refine ⟨m', hm', hM, MarkAsUsed_length _ _ _ _ _ ht, hst, ?_, MarkAsUsed_cell _ _ _ _ _ ht⟩
  intro c hc
  unfold MarkAsUsedM at hm2
  apply MarkAsUsedLoop_frame _ _ _ _ _ _ hm2 c
  intro hmem
  have := hst c hmem
  omega

/-- Witness of `MarkAsUsedE_overmark_bound`: an extent of two bytes that straddles
the 0x7c00 boundary in an image of four clusters. -/
theorem MarkAsUsedE_overmark_bound_witness :
    ∃ m', MarkAsUsedEM 0x20000 ⟨[1, 1, 1, 1], []⟩ 0 0x7bff 2 = some m' ∧
      MarkAsUsedE 0x20000 [1, 1, 1, 1] 0 0x7bff 2 = some m'.m_FreeTable ∧
      m'.m_FreeTable.length = [1, 1, 1, 1].length ∧
      (∀ i ∈ m'.stores, 0 / 0x8000 + 0x7bff / 0x7c00 ≤ i ∧
        i ≤ 0 / 0x8000 + (0x7bff + 2 - 1) / 0x7c00 + 1) ∧
      (∀ c : Nat, (c < 0 / 0x8000 + 0x7bff / 0x7c00 ∨
          0 / 0x8000 + (0x7bff + 2 - 1) / 0x7c00 + 1 < c) →
        m'.m_FreeTable[c]? = [1, 1, 1, 1][c]?) ∧
      (∀ c : Nat, m'.m_FreeTable[c]? = [1, 1, 1, 1][c]? ∨ m'.m_FreeTable[c]? = some 0) :=
  MarkAsUsedE_overmark_bound 0x20000 [1, 1, 1, 1] 0 0x7bff 2 (by decide) (by decide) (by decide)

/-! ## C16: marking is monotone -/

/-- Postcondition of the rewrite loop for at least 1000 clusters: on a file that
holds the `numClusters` whole clusters, with a bitmap of `numClusters` cells and
every write succeeding, the loop runs to its end without a division by zero and
keeps `success`; the file keeps its length; every byte of a cluster marked used
and every byte past the last whole cluster keeps its value; every byte of a
cluster marked free becomes 0xFF. -/
theorem RewriteLoop_postcondition (host : Host) (numClusters : Nat) (m_FreeTable : List Nat)
    (file : List Nat) (events : List Event) (hn : 1000 ≤ numClusters)
    (hcells : m_FreeTable.length = numClusters) (hok : ∀ j, host.fwriteOk j = true)
    (hlen : numClusters * CLUSTER_SIZE ≤ file.length)
    (h64 : numClusters * CLUSTER_SIZE ≤ 2 ^ 64) :
    (RewriteLoop host numClusters m_FreeTable numClusters 0
      ⟨true, file, events, false⟩).success = true ∧
    (RewriteLoop host numClusters m_FreeTable numClusters 0
      ⟨true, file, events, false⟩).divZero = false ∧
    (RewriteLoop host numClusters m_FreeTable numClusters 0
      ⟨true, file, events, false⟩).file.length = file.length ∧
    (∀ p : Nat, p / CLUSTER_SIZE < numClusters → m_FreeTable[p / CLUSTER_SIZE]? = some 0 →
      (RewriteLoop host numClusters m_FreeTable numClusters 0
        ⟨true, file, events, false⟩).file[p]? = file[p]?) ∧
    (∀ p : Nat, p / CLUSTER_SIZE < numClusters → m_FreeTable[p / CLUSTER_SIZE]? ≠ some 0 →
      (RewriteLoop host numClusters m_FreeTable numClusters 0
        ⟨true, file, events, false⟩).file[p]? = some 0xFF) ∧
    (∀ p : Nat, numClusters * CLUSTER_SIZE ≤ p →
      (RewriteLoop host numClusters m_FreeTable numClusters 0
        ⟨true, file, events, false⟩).file[p]? = file[p]?) := by
  have hn' : numClusters / 1000 ≠ 0 := by omega
  have h64' : (0 + numClusters) * CLUSTER_SIZE ≤ 2 ^ 64 := by rw [Nat.zero_add]; exact h64
  have hlen' : (0 + numClusters) * CLUSTER_SIZE ≤ file.length := by
    rw [Nat.zero_add]; exact hlen
  have hL := RewriteLoop_length host numClusters m_FreeTable numClusters 0
    ⟨true, file, events, false⟩ h64' hlen'
  have hframe := RewriteLoop_frame host numClusters m_FreeTable numClusters 0
    ⟨true, file, events, false⟩ h64'
  simp only at hL hframe
  have hunch : ∀ p : Nat,
      (∀ j, j < numClusters → m_FreeTable.getD j 0 ≠ 0 →
        ¬ (j * CLUSTER_SIZE ≤ p ∧ p < (j + 1) * CLUSTER_SIZE)) →
      (RewriteLoop host numClusters m_FreeTable numClusters 0
        ⟨true, file, events, false⟩).file[p]? = file[p]? := by
    intro p hp
    by_cases hpl : p < file.length
    · exact hframe p hpl (fun j _ hj => hp j (by omega))
    · rw [List.getElem?_eq_none (by omega), List.getElem?_eq_none (by omega)]
  refine ⟨RewriteLoop_success host _ _ _ _ _ rfl,
    RewriteLoop_divZero_false host _ _ hn' _ _ _ rfl, hL, fun p hp hu => ?_,
    fun p hp hfree => ?_, fun p hp => ?_⟩
  · apply hunch
    intro j _ hfree hj
    apply hfree
    have : p / CLUSTER_SIZE = j := by rw [CLUSTER_SIZE_eq] at *; omega
    rw [← this, List.getD_eq_getElem?_getD, hu]
    rfl
  · have hdiv := Nat.div_add_mod p CLUSTER_SIZE
    have hmod := Nat.mod_lt p (show CLUSTER_SIZE > 0 by decide)
    apply RewriteLoop_fills host numClusters m_FreeTable hn' hok numClusters 0 _ rfl h64'
      (p / CLUSTER_SIZE) (Nat.zero_le _) (by omega) _ p (by rw [CLUSTER_SIZE_eq] at *; omega)
      (by rw [CLUSTER_SIZE_eq] at *; omega)
    intro h0
    apply hfree
    rw [List.getD_eq_getElem?_getD, List.getElem?_eq_getElem (by omega)] at h0
    rw [List.getElem?_eq_getElem (by omega)]
    simpa using h0
  · apply hunch
    intro j hj _ hjp
    have : (j + 1) * CLUSTER_SIZE ≤ numClusters * CLUSTER_SIZE :=
      Nat.mul_le_mul_right _ (by omega)
    omega

/-- Witness of `RewriteLoop_postcondition`: 1000 free clusters of zero bytes. -/
theorem RewriteLoop_postcondition_witness :
    (RewriteLoop (blankHost 0x1F40000) 1000 (List.replicate 1000 1) 1000 0
      ⟨true, List.replicate 0x1F40000 0, [], false⟩).success = true ∧
    (RewriteLoop (blankHost 0x1F40000) 1000 (List.replicate 1000 1) 1000 0
      ⟨true, List.replicate 0x1F40000 0, [], false⟩).divZero = false ∧
    (RewriteLoop (blankHost 0x1F40000) 1000 (List.replicate 1000 1) 1000 0
      ⟨true, List.replicate 0x1F40000 0, [], false⟩).file.length =
        (List.replicate 0x1F40000 0).length ∧
    (∀ p : Nat, p / CLUSTER_SIZE < 1000 → (List.replicate 1000 1)[p / CLUSTER_SIZE]? = some 0 →
      (RewriteLoop (blankHost 0x1F40000) 1000 (List.replicate 1000 1) 1000 0
        ⟨true, List.replicate 0x1F40000 0, [], false⟩).file[p]? =
          (List.replicate 0x1F40000 0)[p]?) ∧
    (∀ p : Nat, p / CLUSTER_SIZE < 1000 → (List.replicate 1000 1)[p / CLUSTER_SIZE]? ≠ some 0 →
      (RewriteLoop (blankHost 0x1F40000) 1000 (List.replicate 1000 1) 1000 0
        ⟨true, List.replicate 0x1F40000 0, [], false⟩).file[p]? = some 0xFF) ∧
    (∀ p : Nat, 1000 * CLUSTER_SIZE ≤ p →
      (RewriteLoop (blankHost 0x1F40000) 1000 (List.replicate 1000 1) 1000 0
        ⟨true, List.replicate 0x1F40000 0, [], false⟩).file[p]? =
          (List.replicate 0x1F40000 0)[p]?) :=
  RewriteLoop_postcondition (blankHost 0x1F40000) 1000 (List.replicate 1000 1)
    (List.replicate 0x1F40000 0) [] (by decide) (List.length_replicate _ _) (fun _ => rfl)
    (by rw [List.length_replicate]; decide) (by decide)

/-- For an offset that is a multiple of the cluster size, on an image of at most
`2^64 - 0x8000` bytes and a range that does not wrap around, `MarkAsUsed` returns
and marks every cluster that has a cell and intersects the range clipped to the
image. -/
theorem MarkAsUsed_aligned_marks (m_FileSize : Nat) (m_FreeTable : List Nat)
    (_Offset _Size : Nat) (hal : _Offset % CLUSTER_SIZE = 0)
    (hfs : m_FileSize + CLUSTER_SIZE ≤ 2 ^ 64) (hno : _Offset + _Size < 2 ^ 64) :
    ∃ t, MarkAsUsed m_FileSize m_FreeTable _Offset _Size = some t ∧
      ∀ c : Nat, c < m_FreeTable.length → _Offset < (c + 1) * CLUSTER_SIZE →
        c * CLUSTER_SIZE < _Offset + _Size → c * CLUSTER_SIZE < m_FileSize →
        t[c]? = some 0 := by
  obtain ⟨t, ht⟩ := MarkAsUsed_total m_FileSize m_FreeTable _Offset _Size (Or.inl hfs)
  refine ⟨t, ht, fun c hc h1 h2 h3 => ?_⟩
  rw [CLUSTER_SIZE_eq] at *
  have hk : _Offset + (c - _Offset / 32768) * CLUSTER_SIZE = c * 32768 := by
    rw [CLUSTER_SIZE_eq]; omega
  have := MarkAsUsed_marks m_FileSize m_FreeTable t _Offset _Size ht hno (c - _Offset / 32768)
    (by rw [CLUSTER_SIZE_eq]; omega) (by rw [hk]; exact h3)
    (by rw [hk, CLUSTER_SIZE_eq]; omega)
  rw [hk, CLUSTER_SIZE_eq] at this
  have hidx : c * 32768 / 32768 = c := by omega
  rw [hidx] at this
  exact this

/-- Witness of `MarkAsUsed_aligned_marks`: the range [0x8000, 0x8002) in an image of
four clusters. -/
theorem MarkAsUsed_aligned_marks_witness :
    ∃ t, MarkAsUsed 0x20000 [1, 1, 1, 1] 0x8000 2 = some t ∧
      ∀ c : Nat, c < [1, 1, 1, 1].length → 0x8000 < (c + 1) * CLUSTER_SIZE →
        c * CLUSTER_SIZE < 0x8000 + 2 → c * CLUSTER_SIZE < 0x20000 →
        t[c]? = some 0 :=
  MarkAsUsed_aligned_marks 0x20000 [1, 1, 1, 1] 0x8000 2 (by decide) (by decide) (by decide)

/-- On an image whose size is a multiple of the cluster size and at most
`2^64 - 0x8000`, `MarkAsUsed` returns and stores only to indices below the cluster
count; an offset at or past the image size stores nothing and leaves the bitmap
as it is. -/
theorem MarkAsUsed_in_bounds (m_FileSize : Nat) (m_FreeTable : List Nat) (_Offset _Size : Nat)
    (hmul : m_FileSize % CLUSTER_SIZE = 0) (hfs : m_FileSize + CLUSTER_SIZE ≤ 2 ^ 64) :
    ∃ m', MarkAsUsedM m_FileSize ⟨m_FreeTable, []⟩ _Offset _Size = some m' ∧
      MarkAsUsed m_FileSize m_FreeTable _Offset _Size = some m'.m_FreeTable ∧
      MarkAsUsedStores m_FileSize m_FreeTable _Offset _Size = some m'.stores ∧
      (∀ i ∈ m'.stores, i < m_FileSize / CLUSTER_SIZE) ∧
      (m_FileSize ≤ _Offset → m'.stores = [] ∧ m'.m_FreeTable = m_FreeTable) := by
  obtain ⟨t, ht⟩ := MarkAsUsed_total m_FileSize m_FreeTable _Offset _Size (Or.inl hfs)
  have ht' := ht
  unfold MarkAsUsed at ht'
  rw [Option.map_eq_some'] at ht'
  obtain ⟨m', hm', rfl⟩ := ht'
  refine ⟨m', hm', ht, by unfold MarkAsUsedStores; rw [hm']; rfl, fun i hi => ?_, fun hoff => ?_⟩
  · have := MarkAsUsedM_stores_range m_FileSize m_FreeTable _Offset _Size m' (Or.inl hfs) hm' i hi
    rw [CLUSTER_SIZE_eq] at *
    omega
  · unfold MarkAsUsedM at hm'
    have hfuel : m_FileSize / CLUSTER_SIZE + 2 = (m_FileSize / CLUSTER_SIZE + 1) + 1 := rfl
    rw [hfuel, MarkAsUsedLoop, if_neg (by omega)] at hm'
    cases hm'
    exact ⟨rfl, rfl⟩

/-- Witness of `MarkAsUsed_in_bounds`: the header range on an image of two clusters. -/
theorem MarkAsUsed_in_bounds_witness :
    ∃ m', MarkAsUsedM 0x10000 ⟨[1, 1], []⟩ 0 0x50000 = some m' ∧
      MarkAsUsed 0x10000 [1, 1] 0 0x50000 = some m'.m_FreeTable ∧
      MarkAsUsedStores 0x10000 [1, 1] 0 0x50000 = some m'.stores ∧
      (∀ i ∈ m'.stores, i < 0x10000 / CLUSTER_SIZE) ∧
      (0x10000 ≤ 0 → m'.stores = [] ∧ m'.m_FreeTable = [1, 1]) :=
  MarkAsUsed_in_bounds 0x10000 [1, 1] 0 0x50000 (by decide) (by decide)

/-- Under the hypotheses of conservative marking (a base `B` that is a multiple of
0x8000, a compensated range inside the image that ends at least 0x8000 below 2^64)
`MarkAsUsedE(B, o, n)` returns and, for every logical byte `b` of `[o, o+n)`,
executes the store `m_FreeTable[B/0x8000 + b/0x7c00] = 0`; that cell is used
afterwards whenever the bitmap has it. -/
theorem MarkAsUsedE_live_store (m_FileSize : Nat) (m_FreeTable : List Nat) (B o n b : Nat)
    (hB : B % 0x8000 = 0)
    (hin : B + o / 0x7c00 * 0x8000 + ((n / 0x7c00 + 1) * 0x8000 + o % 0x7c00) ≤ m_FileSize)
    (hno : B + o / 0x7c00 * 0x8000 + ((n / 0x7c00 + 1) * 0x8000 + o % 0x7c00) + 0x8000 ≤ 2 ^ 64)
    (hb1 : o ≤ b) (hb2 : b < o + n) :
    ∃ m', MarkAsUsedEM m_FileSize ⟨m_FreeTable, []⟩ B o n = some m' ∧
      MarkAsUsedE m_FileSize m_FreeTable B o n = some m'.m_FreeTable ∧
      B / 0x8000 + b / 0x7c00 ∈ m'.stores ∧
      (B / 0x8000 + b / 0x7c00 < m_FreeTable.length →
        m'.m_FreeTable[B / 0x8000 + b / 0x7c00]? = some 0) := by
  have he : u64 (B + o / 0x7c00 * 0x8000 + ((n / 0x7c00 + 1) * 0x8000 + o % 0x7c00)) =
      B + o / 0x7c00 * 0x8000 + ((n / 0x7c00 + 1) * 0x8000 + o % 0x7c00) := by
    unfold u64; apply Nat.mod_eq_of_lt; omega
  obtain ⟨t, ht⟩ := MarkAsUsed_total m_FileSize m_FreeTable (B + o / 0x7c00 * 0x8000)
    ((n / 0x7c00 + 1) * 0x8000 + o % 0x7c00) (Or.inr (by rw [he, CLUSTER_SIZE_eq]; omega))
  have hM : MarkAsUsedE m_FileSize m_FreeTable B o n = some t := by
    rw [MarkAsUsedE_exact m_FileSize m_FreeTable B o n (by omega), ht]
  have hM' := hM
  unfold MarkAsUsedE at hM'
  rw [Option.map_eq_some'] at hM'
  obtain ⟨m', hm', rfl⟩ := hM'
  have hm2 : MarkAsUsedLoop m_FileSize
      (B + o / 0x7c00 * 0x8000 + ((n / 0x7c00 + 1) * 0x8000 + o % 0x7c00))
      (m_FileSize / CLUSTER_SIZE + 2) (B + o / 0x7c00 * 0x8000) ⟨m_FreeTable, []⟩ = some m' := by
    have h1 : u64 (o / 0x7c00 * CLUSTER_SIZE) = o / 0x7c00 * 0x8000 := by
      unfold u64; rw [CLUSTER_SIZE_eq]; apply Nat.mod_eq_of_lt; omega
    have h2 : u64 (o / 0x7c00 * 0x8000 + B) = B + o / 0x7c00 * 0x8000 := by
      unfold u64; rw [Nat.add_comm]; apply Nat.mod_eq_of_lt; omega
    have h3 : u64 ((n / 0x7c00 + 1) * CLUSTER_SIZE) = (n / 0x7c00 + 1) * 0x8000 := by
      unfold u64; rw [CLUSTER_SIZE_eq]; apply Nat.mod_eq_of_lt; omega
    have h4 : u64 ((n / 0x7c00 + 1) * 0x8000 + o % 0x7c00) =
        (n / 0x7c00 + 1) * 0x8000 + o % 0x7c00 := by
      unfold u64; apply Nat.mod_eq_of_lt; omega
    unfold MarkAsUsedEM MarkAsUsedM at hm'
    simp only [h1, h2, h3, h4, he] at hm'
    exact hm'
  have hk := MarkAsUsedLoop_marks m_FileSize _ (Or.inr (by omega)) _ _ _ _ hm2
    (b / 0x7c00 - o / 0x7c00) (by rw [CLUSTER_SIZE_eq]; omega)
    (by rw [CLUSTER_SIZE_eq]; omega)
  have hidx : (B + o / 0x7c00 * 0x8000 + (b / 0x7c00 - o / 0x7c00) * CLUSTER_SIZE) /
      CLUSTER_SIZE = B / 0x8000 + b / 0x7c00 := by
    rw [CLUSTER_SIZE_eq]; omega
  rw [hidx] at hk
  exact ⟨m', hm', hM, hk.1, hk.2⟩

/-- Witness of `MarkAsUsedE_live_store`: the extent of two bytes that straddles the
0x7c00 boundary, on the image of 0xfbff bytes with its bitmap of one cell. -/
theorem MarkAsUsedE_live_store_witness :
    ∃ m', MarkAsUsedEM 0xfbff ⟨[1], []⟩ 0 0x7bff 2 = some m' ∧
      MarkAsUsedE 0xfbff [1] 0 0x7bff 2 = some m'.m_FreeTable ∧
      0 / 0x8000 + 0x7c00 / 0x7c00 ∈ m'.stores ∧
      (0 / 0x8000 + 0x7c00 / 0x7c00 < [1].length →
        m'.m_FreeTable[0 / 0x8000 + 0x7c00 / 0x7c00]? = some 0) :=
  MarkAsUsedE_live_store 0xfbff [1] 0 0x7bff 2 0x7c00 (by decide) (by decide) (by decide)
    (by decide) (by decide)

/-- Conservative marking where every cluster has a cell: for a data-area base `B`
that is a multiple of 0x8000, a logical offset `o` and a length `n` whose compensated
physical range lies inside the image and ends at least 0x8000 below 2^64 (so nothing
wraps around), `MarkAsUsedE(B, o, n)` returns, and for every logical byte `b` of
`[o, o+n)` the physical cluster `B/0x8000 + b/0x7c00` is marked used as soon as it has
a cell in the bitmap (index below `m_FileSize / 0x8000`); every such cluster has a
cell when the image size is a multiple of 0x8000. -/
theorem MarkAsUsedE_conservative (m_FileSize : Nat) (m_FreeTable : List Nat) (B o n b : Nat)
    (hlen : m_FreeTable.length = m_FileSize / CLUSTER_SIZE)
    (hB : B % 0x8000 = 0)
    (hin : B + o / 0x7c00 * 0x8000 + ((n / 0x7c00 + 1) * 0x8000 + o % 0x7c00) ≤ m_FileSize)
    (hno : B + o / 0x7c00 * 0x8000 + ((n / 0x7c00 + 1) * 0x8000 + o % 0x7c00) + 0x8000 ≤ 2 ^ 64)
    (hb1 : o ≤ b) (hb2 : b < o + n) :
    ∃ t, MarkAsUsedE m_FileSize m_FreeTable B o n = some t ∧
      (B / 0x8000 + b / 0x7c00 < m_FileSize / CLUSTER_SIZE →
        t[B / 0x8000 + b / 0x7c00]? = some 0) ∧
      (m_FileSize % 0x8000 = 0 → B / 0x8000 + b / 0x7c00 < m_FileSize / CLUSTER_SIZE) := by
  have hex := MarkAsUsedE_exact m_FileSize m_FreeTable B o n (by omega)
  obtain ⟨t, ht⟩ := MarkAsUsed_total m_FileSize m_FreeTable (B + o / 0x7c00 * 0x8000)
    ((n / 0x7c00 + 1) * 0x8000 + o % 0x7c00) (Or.inr (by
      have : u64 (B + o / 0x7c00 * 0x8000 + ((n / 0x7c00 + 1) * 0x8000 + o % 0x7c00)) =
          B + o / 0x7c00 * 0x8000 + ((n / 0x7c00 + 1) * 0x8000 + o % 0x7c00) := by
        unfold u64; apply Nat.mod_eq_of_lt; omega
      rw [this, CLUSTER_SIZE_eq]; omega))
  refine ⟨t, by rw [hex, ht], ?_, ?_⟩
  · intro hc
    have hm := MarkAsUsed_marks m_FileSize m_FreeTable t (B + o / 0x7c00 * 0x8000)
      ((n / 0x7c00 + 1) * 0x8000 + o % 0x7c00) ht (by omega) (b / 0x7c00 - o / 0x7c00)
      (by rw [CLUSTER_SIZE_eq]; omega) (by rw [CLUSTER_SIZE_eq] at *; omega)
      (by rw [hlen]; rw [CLUSTER_SIZE_eq] at *; omega)
    have hidx : (B + o / 0x7c00 * 0x8000 + (b / 0x7c00 - o / 0x7c00) * CLUSTER_SIZE) /
        CLUSTER_SIZE = B / 0x8000 + b / 0x7c00 := by
      rw [CLUSTER_SIZE_eq]; omega
    rw [hidx] at hm
    exact hm
  · intro hmul
    rw [CLUSTER_SIZE_eq]
    omega

/-- Witness of `MarkAsUsedE_conservative`: an extent that straddles the 0x7c00
boundary in a two-cluster image. -/
theorem MarkAsUsedE_conservative_witness :
    ∃ t, MarkAsUsedE 0x10000 [1, 1] 0 0x7bff 2 = some t ∧
      (0 / 0x8000 + 0x7c00 / 0x7c00 < 0x10000 / CLUSTER_SIZE →
        t[0 / 0x8000 + 0x7c00 / 0x7c00]? = some 0) ∧
      (0x10000 % 0x8000 = 0 → 0 / 0x8000 + 0x7c00 / 0x7c00 < 0x10000 / CLUSTER_SIZE) :=
  MarkAsUsedE_conservative 0x10000 [1, 1] 0 0x7bff 2 0x7c00 (by decide) (by decide) (by decide)
    (by decide) (by decide) (by decide)

end DiscScrubber
